import Mathlib

/-!
# dart_ffi_poc: the calculator engine and its C API

A shallow embedding of `calculator.cpp` (class `Calculator`),
`calculator_c_api.cpp` (the flat C functions over opaque handles) and
`math_lib.c` (free functions), followed by theorems about them.

Conventions of the embedding

* `int` is a Lean `Int` kept in the signed 32-bit range by `wrap32`
  (two's-complement wrap-around on overflow, for `a + b`, `a * b` and
  `operation_count_++` alike; the code has no overflow check).
* `double` is `Double`, an IEEE 754 binary64 bit pattern.  Comparison
  (`<`, `==`) is decided on the bit pattern; `+`, `-`, `*`, `/`, `sqrt` and the
  conversion from an unsigned size are computed exactly and rounded to
  nearest, ties to even.
* A member function of `Calculator` takes the object and returns the result
  together with the object after the call.
* A C API function takes the heap and returns `none` where the C++ code has
  undefined behaviour (a handle that is not live, a read past the end of the
  caller's array), otherwise the result together with the heap after the call.
-/

namespace DartFfi

/-! ## Machine integers -/

/-- The least value of a 32-bit `int`. -/
def INT_MIN : Int := -2147483648

/-- The greatest value of a 32-bit `int`. -/
def INT_MAX : Int := 2147483647

/-- Reduction of a mathematical integer modulo 2^32 into the signed 32-bit range. -/
def wrap32 (z : Int) : Int := (z + 2147483648) % 4294967296 - 2147483648

/-- The values an `int` can hold. -/
def IsInt32 (z : Int) : Prop := INT_MIN ≤ z ∧ z ≤ INT_MAX

instance (z : Int) : Decidable (IsInt32 z) := by
  unfold IsInt32; exact inferInstance

/-! ## IEEE 754 binary64 -/

/-- A `double`: its 64-bit pattern (sign bit, 11 exponent bits, 52 fraction bits). -/
structure Double where
  bits : Nat
  isLt : bits < 18446744073709551616
deriving DecidableEq

namespace Double

/-- The bit pattern `n`, reduced to 64 bits. -/
def ofBits (n : Nat) : Double := ⟨n % 18446744073709551616, Nat.mod_lt _ (by decide)⟩

/-- The literal `0.0` (positive zero). -/
def zero : Double := ofBits 0

/-- Sign bit set. -/
def signBit (d : Double) : Bool := 9223372036854775808 ≤ d.bits

/-- The bit pattern without its sign bit. -/
def magnitude (d : Double) : Nat := d.bits % 9223372036854775808

/-- The biased exponent field. -/
def expo (d : Double) : Nat := d.bits / 4503599627370496 % 2048

/-- The fraction field. -/
def frac (d : Double) : Nat := d.bits % 4503599627370496

/-- Not-a-number: exponent field all ones and a non-zero fraction. -/
def isNaN (d : Double) : Bool := 9218868437227405312 < d.magnitude

/-- An infinity: exponent field all ones and a zero fraction. -/
def isInf (d : Double) : Bool := d.magnitude == 9218868437227405312

/-- The position of a value that is not a NaN on the number line: IEEE 754
values that are not NaN are ordered as sign-magnitude integers, and the two
zeros share position 0. -/
def key (d : Double) : Int :=
  if d.signBit then -(d.magnitude : Int) else (d.magnitude : Int)

/-- The comparison `a < b` of two doubles: false when either is a NaN. -/
def lt (a b : Double) : Bool := !a.isNaN && !b.isNaN && decide (a.key < b.key)

/-- The comparison `a == b` of two doubles: false when either is a NaN,
true for `-0.0 == 0.0`. -/
def eq (a b : Double) : Bool := !a.isNaN && !b.isNaN && decide (a.key = b.key)

/-- The comparison `a <= b` of two doubles: false when either is a NaN. -/
def le (a b : Double) : Bool := !a.isNaN && !b.isNaN && decide (a.key ≤ b.key)

/-- The quiet NaN produced by an invalid operation. -/
def nan : Double := ofBits 9221120237041090560

/-- The infinity of the given sign. -/
def inf (neg : Bool) : Double :=
  ofBits ((if neg then 9223372036854775808 else 0) + 9218868437227405312)

/-- The magnitude of a finite double counted in units of 2^-1074 (the least
subnormal): every finite double is a whole number of these. -/
def units (d : Double) : Nat :=
  if d.expo = 0 then d.frac else (4503599627370496 + d.frac) * 2 ^ (d.expo - 1)

/-- A finite double as a signed whole number of units of 2^-1074. -/
def signedUnits (d : Double) : Int :=
  if d.signBit then -(d.units : Int) else (d.units : Int)

/-- Floor of the base-2 logarithm of `n` by repeated halving, at most `fuel`
times. -/
def log2Aux : Nat → Nat → Nat
  | 0, _ => 0
  | fuel + 1, n => if n < 2 then 0 else log2Aux fuel (n / 2) + 1

/-- Floor of the base-2 logarithm of a positive natural number. -/
def log2 (n : Nat) : Nat := log2Aux n n

/-- Floor of the base-2 logarithm of the positive rational `n / d`. -/
def floorLog2 (n d : Nat) : Int :=
  let e : Int := (log2 n : Int) - (log2 d : Int)
  let fits : Bool := if 0 ≤ e then decide (d * 2 ^ e.toNat ≤ n) else decide (d ≤ n * 2 ^ (-e).toNat)
  if fits then e else e - 1

/-- Quotient of `n / d` rounded to the nearest natural number, ties to even. -/
def divRoundEven (n d : Nat) : Nat :=
  let q := n / d
  let r := n % d
  if d < 2 * r ∨ (2 * r = d ∧ q % 2 = 1) then q + 1 else q

/-- The bit pattern (sign bit clear) of the double nearest to the rational
`n / d` (ties to even), `d` positive; the pattern of infinity on overflow.  With
`e` the exponent of the result, at least -1022, the significand is `n / d`
counted in units of `2 ^ (e - 52)`, and the pattern is the biased exponent
field followed by the significand without its leading bit; a significand
that rounds up to the next binade carries into the exponent field. -/
def roundBits (n d : Nat) : Nat :=
  if n = 0 then 0 else
  let e : Int := max (floorLog2 n d) (-1022)
  let u : Int := e - 52
  let sig : Nat :=
    if 0 ≤ u then divRoundEven n (d * 2 ^ u.toNat) else divRoundEven (n * 2 ^ (-u).toNat) d
  min ((e + 1022).toNat * 4503599627370496 + sig) 9218868437227405312

/-- The double of the given sign nearest to `n / d`. -/
def round (neg : Bool) (n d : Nat) : Double :=
  ofBits ((if neg then 9223372036854775808 else 0) + roundBits n d)

/-- The sum `a + b`, rounded to nearest. -/
def add (a b : Double) : Double :=
  if a.isNaN || b.isNaN then nan
  else if a.isInf then (if b.isInf && (a.signBit != b.signBit) then nan else a)
  else if b.isInf then b
  else
    let s : Int := a.signedUnits + b.signedUnits
    if s = 0 then (if a.signBit && b.signBit then ofBits 9223372036854775808 else zero)
    else round (decide (s < 0)) s.natAbs (2 ^ 1074)

/-- The quotient `a / b`, rounded to nearest. -/
def div (a b : Double) : Double :=
  let neg : Bool := a.signBit != b.signBit
  if a.isNaN || b.isNaN then nan
  else if a.isInf then (if b.isInf then nan else inf neg)
  else if b.isInf then round neg 0 1
  else if b.units = 0 then (if a.units = 0 then nan else inf neg)
  else round neg a.units b.units

/-- Conversion of an unsigned size (`size_t`) to `double`. -/
def ofNat (n : Nat) : Double := round false n 1

/-- The negation `-a`: the sign bit flipped. -/
def neg (a : Double) : Double :=
  ofBits (if a.signBit then a.magnitude else a.bits + 9223372036854775808)

/-- The difference `a - b`, rounded to nearest: the sum of `a` and `-b`. -/
def sub (a b : Double) : Double := add a (neg b)

/-- The product `a * b`, rounded to nearest. -/
def mul (a b : Double) : Double :=
  let neg : Bool := a.signBit != b.signBit
  if a.isNaN || b.isNaN then nan
  else if a.isInf then (if b.units = 0 then nan else inf neg)
  else if b.isInf then (if a.units = 0 then nan else inf neg)
  else round neg (a.units * b.units) (2 ^ 2148)

/-- The loop of `isqrt`: the bits of the root are decided from bit `i - 1`
down to bit 0, `res` holding the bits decided so far. -/
def isqrtAux : Nat → Nat → Nat → Nat
  | 0, _, res => res
  | i + 1, n, res =>
    if (res + 2 ^ i) * (res + 2 ^ i) ≤ n then isqrtAux i n (res + 2 ^ i) else isqrtAux i n res

/-- Floor of the square root of a natural number. -/
def isqrt (n : Nat) : Nat := isqrtAux (log2 n / 2 + 1) n 0

/-- The square root `sqrt(a)` of math.h, rounded to nearest.  For a finite
positive `a` of `u` units of 2^-1074, with `s` the floor of the square root of
`u * 2^128`, the root is `s / 2^601` when `s` is exact and otherwise lies
strictly between `s / 2^601` and `(s + 1) / 2^601`, where it rounds as the
midpoint `(2 s + 1) / 2^602` does, `s` having more than 55 bits. -/
def sqrt (a : Double) : Double :=
  if a.isNaN then nan
  else if a.magnitude = 0 then a
  else if a.signBit then nan
  else if a.isInf then a
  else
    let n : Nat := a.units * 2 ^ 128
    let s : Nat := isqrt n
    if s * s = n then round false s (2 ^ 601) else round false (2 * s + 1) (2 ^ 602)

end Double

/-! ## Strings -/

/-- The terminating zero character of a C string. -/
def NUL : Char := Char.ofNat 0

/-- The decimal text of an `int`, as `std::to_string` gives it. -/
def to_string (val : Int) : String :=
  if val < 0 then "-" ++ Nat.repr val.natAbs else Nat.repr val.natAbs

/-- The characters `std::string::c_str` exposes: the text and a terminating zero. -/
def c_str (s : String) : List Char := s.data ++ [NUL]

/-- The characters `strcpy` writes to its destination: the source up to and
including its first zero character. -/
def strcpy (src : List Char) : List Char := src.takeWhile (fun ch => ch != NUL) ++ [NUL]

/-! ## The engine: `class Calculator` (calculator.hpp, calculator.cpp) -/

/-- The data members of `class Calculator`. -/
structure Calculator where
  name_ : String
  operation_count_ : Int
deriving DecidableEq

/-- An iterator into a sequence of doubles that can be dereferenced: its
position and the element there.  The past-the-end iterator is `none`. -/
abbrev Iter := Option (Nat × Double)

/-- The loop of `std::max_element`: `first` runs over the elements after the
candidate `largest`, which is replaced whenever `*largest < *first`. -/
def max_element_scan : List Double → Nat → Nat × Double → Nat × Double
  | [], _, largest => largest
  | x :: rest, first, largest =>
    if Double.lt largest.2 x then max_element_scan rest (first + 1) (first, x)
    else max_element_scan rest (first + 1) largest

/-- The iterator `std::max_element(values.begin(), values.end())`: the first
greatest element, or the end iterator for an empty range. -/
def max_element : List Double → Iter
  | [] => none
  | x :: rest => some (max_element_scan rest 1 (0, x))

/-- The loop of `std::min_element`: the candidate `smallest` is replaced
whenever `*first < *smallest`. -/
def min_element_scan : List Double → Nat → Nat × Double → Nat × Double
  | [], _, smallest => smallest
  | x :: rest, first, smallest =>
    if Double.lt x smallest.2 then min_element_scan rest (first + 1) (first, x)
    else min_element_scan rest (first + 1) smallest

/-- The iterator `std::min_element(values.begin(), values.end())`: the first
least element, or the end iterator for an empty range. -/
def min_element : List Double → Iter
  | [] => none
  | x :: rest => some (min_element_scan rest 1 (0, x))

namespace Calculator

/-- The constructor `Calculator::Calculator(name)`. -/
def ctor (name : String) : Calculator := { name_ := name, operation_count_ := 0 }

/-- The method `Calculator::sum`. -/
def sum (c : Calculator) (a b : Int) : Int × Calculator :=
  let c := { c with operation_count_ := wrap32 (c.operation_count_ + 1) }
  (wrap32 (a + b), c)

/-- The method `Calculator::product`. -/
def product (c : Calculator) (a b : Int) : Int × Calculator :=
  let c := { c with operation_count_ := wrap32 (c.operation_count_ + 1) }
  (wrap32 (a * b), c)

/-- The method `Calculator::divide`. -/
def divide (c : Calculator) (a b : Double) : Double × Calculator :=
  let c := { c with operation_count_ := wrap32 (c.operation_count_ + 1) }
  if Double.eq b Double.zero then (Double.zero, c)
  else (Double.div a b, c)

/-- The method `Calculator::average`. -/
def average (c : Calculator) (values : List Double) : Double × Calculator :=
  let c := { c with operation_count_ := wrap32 (c.operation_count_ + 1) }
  if values.isEmpty then (Double.zero, c)
  else
    let sum := values.foldl (fun sum v => Double.add sum v) Double.zero
    (Double.div sum (Double.ofNat values.length), c)

/-- The method `Calculator::max`; `none` is the undefined behaviour of
dereferencing an end iterator. -/
def max (c : Calculator) (values : List Double) : Option (Double × Calculator) :=
  let c := { c with operation_count_ := wrap32 (c.operation_count_ + 1) }
  if values.isEmpty then some (Double.zero, c)
  else (max_element values).map (fun it => (it.2, c))

/-- The method `Calculator::min`; `none` is the undefined behaviour of
dereferencing an end iterator. -/
def min (c : Calculator) (values : List Double) : Option (Double × Calculator) :=
  let c := { c with operation_count_ := wrap32 (c.operation_count_ + 1) }
  if values.isEmpty then some (Double.zero, c)
  else (min_element values).map (fun it => (it.2, c))

/-- The method `Calculator::description` (const). -/
def description (c : Calculator) : String :=
  "Calculator '" ++ c.name_ ++ "' with " ++ to_string c.operation_count_ ++ " operations"

/-- The method `Calculator::get_operation_count` (const). -/
def get_operation_count (c : Calculator) : Int := c.operation_count_

end Calculator

/-! ## The free function `divide` (math_lib.c) -/

/-- The function `divide` of math_lib.c. -/
def divide (a b : Double) : Double :=
  if Double.eq b Double.zero then Double.zero
  else Double.div a b

/-! ## The free function `factorial` (math_lib.c) -/

/-- The function `factorial` of math_lib.c. -/
def factorial (n : Int) : Int :=
  if n ≤ 0 then 1
  else if n = 1 then 1
  else wrap32 (n * factorial (wrap32 (n - 1)))
termination_by n.toNat
decreasing_by
  unfold wrap32
  omega

/-- The body of `factorial` run with room for at most `depth` nested
activations, counting the recursive calls: the value returned and the number
of recursive calls made, or `none` when `depth` activations do not reach a
base case. -/
def factorial_eval : Nat → Int → Option (Int × Nat)
  | 0, _ => none
  | depth + 1, n =>
    if n ≤ 0 then some (1, 0)
    else if n = 1 then some (1, 0)
    else
      match factorial_eval depth (wrap32 (n - 1)) with
      | none => none
      | some (r, calls) => some (wrap32 (n * r), calls + 1)

/-! ## Points (math_lib.h, math_lib.c) -/

/-- The struct `Point` of math_lib.h. -/
structure Point where
  x : Double
  y : Double
deriving DecidableEq

/-- The function `add_points` of math_lib.c. -/
def add_points (a b : Point) : Point :=
  { x := Double.add a.x b.x, y := Double.add a.y b.y }

/-- The function `scale_point` of math_lib.c. -/
def scale_point (p : Point) (scale : Double) : Point :=
  { x := Double.mul p.x scale, y := Double.mul p.y scale }

/-- The function `point_distance` of math_lib.c, each operation rounded on its
own. -/
def point_distance (p1 p2 : Point) : Double :=
  let dx := Double.sub p2.x p1.x
  let dy := Double.sub p2.y p1.y
  Double.sqrt (Double.add (Double.mul dx dx) (Double.mul dy dy))

/-! ## The C API (calculator_c_api.cpp)

A `CalculatorHandle` and a `const char*` result are addresses, 0 being the
null pointer.  A `const char* name` argument is given by the text of the C
string it points to (`none` for a null pointer), a `const double* values`
argument by the doubles readable from it (`none` for a null pointer). -/

/-- The objects on the heap: the `Calculator` instances created by `new` and
not yet deleted, and the character buffers obtained from `malloc` and not yet
freed, each by address. -/
structure Heap where
  calcs : Nat → Option Calculator
  strings : Nat → Option (List Char)

namespace Heap

/-- The heap with nothing allocated. -/
def empty : Heap := { calcs := fun _ => none, strings := fun _ => none }

/-- The heap with the `Calculator` at address `p` replaced (`none`: deleted). -/
def setCalc (h : Heap) (p : Nat) (c : Option Calculator) : Heap :=
  { h with calcs := fun q => if q = p then c else h.calcs q }

/-- The heap with the buffer at address `p` replaced (`none`: freed). -/
def setString (h : Heap) (p : Nat) (s : Option (List Char)) : Heap :=
  { h with strings := fun q => if q = p then s else h.strings q }

end Heap

/-- The vector `std::vector<double> vec(values, values + length)`: the first
`length` doubles at `values`; `none` (undefined behaviour) when fewer are
readable there. -/
def vector_of (values : List Double) (length : Int) : Option (List Double) :=
  if length.toNat ≤ values.length then some (values.take length.toNat) else none

/-- The function `calculator_new`; `p` is the address `new` returns, which is
neither null nor the address of a live object. -/
def calculator_new (h : Heap) (name : Option String) (p : Nat) : Nat × Heap :=
  let name := match name with
    | none => "Default"
    | some name => name
  (p, h.setCalc p (some (Calculator.ctor name)))

/-- The function `calculator_free`. -/
def calculator_free (h : Heap) (handle : Nat) : Option Heap :=
  if handle ≠ 0 then
    match h.calcs handle with
    | none => none
    | some _ => some (h.setCalc handle none)
  else some h

/-- The function `calculator_sum`. -/
def calculator_sum (h : Heap) (handle : Nat) (a b : Int) : Option (Int × Heap) :=
  match h.calcs handle with
  | none => none
  | some obj =>
    let r := obj.sum a b
    some (r.1, h.setCalc handle (some r.2))

/-- The function `calculator_product`. -/
def calculator_product (h : Heap) (handle : Nat) (a b : Int) : Option (Int × Heap) :=
  match h.calcs handle with
  | none => none
  | some obj =>
    let r := obj.product a b
    some (r.1, h.setCalc handle (some r.2))

/-- The function `calculator_divide`. -/
def calculator_divide (h : Heap) (handle : Nat) (a b : Double) : Option (Double × Heap) :=
  match h.calcs handle with
  | none => none
  | some obj =>
    let r := obj.divide a b
    some (r.1, h.setCalc handle (some r.2))

/-- The function `calculator_average`. -/
def calculator_average (h : Heap) (handle : Nat) (values : Option (List Double))
    (length : Int) : Option (Double × Heap) :=
  match values with
  | none => some (Double.zero, h)
  | some values =>
    if length ≤ 0 then some (Double.zero, h)
    else
      match vector_of values length, h.calcs handle with
      | some vec, some obj =>
        let r := obj.average vec
        some (r.1, h.setCalc handle (some r.2))
      | _, _ => none

/-- The function `calculator_max`. -/
def calculator_max (h : Heap) (handle : Nat) (values : Option (List Double))
    (length : Int) : Option (Double × Heap) :=
  match values with
  | none => some (Double.zero, h)
  | some values =>
    if length ≤ 0 then some (Double.zero, h)
    else
      match vector_of values length, h.calcs handle with
      | some vec, some obj =>
        (obj.max vec).map (fun r => (r.1, h.setCalc handle (some r.2)))
      | _, _ => none

/-- The function `calculator_min`. -/
def calculator_min (h : Heap) (handle : Nat) (values : Option (List Double))
    (length : Int) : Option (Double × Heap) :=
  match values with
  | none => some (Double.zero, h)
  | some values =>
    if length ≤ 0 then some (Double.zero, h)
    else
      match vector_of values length, h.calcs handle with
      | some vec, some obj =>
        (obj.min vec).map (fun r => (r.1, h.setCalc handle (some r.2)))
      | _, _ => none

/-- The function `calculator_description`; `result` is the address `malloc`
returns, null (0) when the allocation fails. -/
def calculator_description (h : Heap) (handle : Nat) (result : Nat) : Option (Nat × Heap) :=
  match h.calcs handle with
  | none => none
  | some obj =>
    let desc := obj.description
    if result ≠ 0 then some (result, h.setString result (some (strcpy (c_str desc))))
    else some (result, h)

/-- The function `calculator_free_string`. -/
def calculator_free_string (h : Heap) (str : Nat) : Option Heap :=
  if str ≠ 0 then
    match h.strings str with
    | none => none
    | some _ => some (h.setString str none)
  else some h

/-- The function `calculator_get_operation_count`. -/
def calculator_get_operation_count (h : Heap) (handle : Nat) : Option (Int × Heap) :=
  match h.calcs handle with
  | none => none
  | some obj => some (obj.get_operation_count, h)

/-! ## Runs of calls on one handle -/

/-- A call of one of the C API functions that take a live handle, with its
arguments other than the handle (for `description`, the address `malloc`
returns). -/
inductive Call where
  | sum (a b : Int)
  | product (a b : Int)
  | divide (a b : Double)
  | average (values : Option (List Double)) (length : Int)
  | max (values : Option (List Double)) (length : Int)
  | min (values : Option (List Double)) (length : Int)
  | description (result : Nat)
  | get_operation_count

namespace Call

/-- The heap after the call on `handle`, its result dropped; `none` where the
call has undefined behaviour. -/
def exec (h : Heap) (handle : Nat) : Call → Option Heap
  | sum a b => (calculator_sum h handle a b).map Prod.snd
  | product a b => (calculator_product h handle a b).map Prod.snd
  | divide a b => (calculator_divide h handle a b).map Prod.snd
  | average values length => (calculator_average h handle values length).map Prod.snd
  | max values length => (calculator_max h handle values length).map Prod.snd
  | min values length => (calculator_min h handle values length).map Prod.snd
  | description result => (calculator_description h handle result).map Prod.snd
  | get_operation_count => (calculator_get_operation_count h handle).map Prod.snd

/-- The call is `calculator_description` or `calculator_get_operation_count`. -/
def isQuery : Call → Bool
  | description _ => true
  | get_operation_count => true
  | _ => false

/-- A statistics array argument that is non-null, with a length of at least 1
and no more than the doubles readable from the pointer. -/
def validArray (values : Option (List Double)) (length : Int) : Bool :=
  match values with
  | none => false
  | some values => decide (1 ≤ length) && decide (length.toNat ≤ values.length)

/-- Every statistics call has a valid array argument. -/
def validArgs : Call → Bool
  | average values length => validArray values length
  | max values length => validArray values length
  | min values length => validArray values length
  | _ => true

/-- The array argument of a statistics call does not make the call read past
the end of the caller's array: it is null, or the length is not positive, or
the length is at most the number of doubles readable from the pointer. -/
def readable (values : Option (List Double)) (length : Int) : Bool :=
  match values with
  | none => true
  | some values => decide (length ≤ 0) || decide (length.toNat ≤ values.length)

/-- The call reads nothing past the end of a caller's array. -/
def inBounds : Call → Bool
  | average values length => readable values length
  | max values length => readable values length
  | min values length => readable values length
  | _ => true

/-- The array argument of a statistics call passes the guard of the C API: it
is non-null and the length is positive. -/
def forwarded (values : Option (List Double)) (length : Int) : Bool :=
  values.isSome && decide (0 < length)

/-- The call reaches a counted method of the engine: an arithmetic call, or a
statistics call whose array argument passes the guard. -/
def counted : Call → Bool
  | sum _ _ => true
  | product _ _ => true
  | divide _ _ => true
  | average values length => forwarded values length
  | max values length => forwarded values length
  | min values length => forwarded values length
  | description _ => false
  | get_operation_count => false

end Call

/-- The heap after a sequence of calls on `handle`, in order; `none` when one
of them has undefined behaviour. -/
def run (h : Heap) (handle : Nat) : List Call → Option Heap
  | [] => some h
  | call :: calls => (call.exec h handle).bind (fun h => run h handle calls)

/-! ## Notions used in the statements -/

/-- The object after a counted method: the same name, the counter advanced by
one with 32-bit wrap-around. -/
def Calculator.bumped (c : Calculator) : Calculator :=
  { c with operation_count_ := wrap32 (c.operation_count_ + 1) }

/-- The object a call on a live handle leaves behind. -/
def Call.after (call : Call) (c : Calculator) : Calculator :=
  if call.counted then c.bumped else c

/-- The object a sequence of calls on a live handle leaves behind. -/
def afterAll (calls : List Call) (c : Calculator) : Calculator :=
  calls.foldl (fun c call => call.after c) c

/-- The number of calls of a sequence that reach a counted method. -/
def countedCalls (calls : List Call) : Nat := calls.countP Call.counted

/-- The sum of the first `k` elements of a sequence accumulated left to right
starting from 0.0: `((0.0 + v1) + v2) + ... + vk`.  (The element at a position
past the end counts as 0.0.) -/
def leftSum (values : List Double) : Nat → Double
  | 0 => Double.zero
  | k + 1 => Double.add (leftSum values k) (values.getD k Double.zero)

/-- Between the heaps `h` and `h'` nothing differs but the counter of the
`Calculator` at `handle`, which is `c` in `h`: that object has kept its name,
every other `Calculator` and every string buffer is as it was. -/
def OnlyCounterChanged (h : Heap) (handle : Nat) (c : Calculator) (h' : Heap) : Prop :=
  (∃ c', h'.calcs handle = some c' ∧ c'.name_ = c.name_) ∧
  (∀ q, q ≠ handle → h'.calcs q = h.calcs q) ∧
  h'.strings = h.strings

/-- The heap with the string buffers replaced by `s` and the `Calculator`
objects kept. -/
def Heap.withStrings (h : Heap) (s : Nat → Option (List Char)) : Heap :=
  { h with strings := s }

/-! ## Lemmas: machine integers -/

theorem wrap32_eq_self {z : Int} (hz : IsInt32 z) : wrap32 z = z := by
  unfold IsInt32 INT_MIN INT_MAX at hz
  unfold wrap32
  omega

theorem isInt32_wrap32 (z : Int) : IsInt32 (wrap32 z) := by
  unfold IsInt32 INT_MIN INT_MAX wrap32
  omega

theorem wrap32_wrap32_add (x y : Int) : wrap32 (wrap32 x + y) = wrap32 (x + y) := by
  unfold wrap32
  omega

/-! ## Lemmas: the zero guard -/

/-- The doubles that compare equal to 0.0 are 0.0 and -0.0. -/
theorem Double.eq_zero_iff (b : Double) :
    Double.eq b Double.zero = true ↔ b.bits = 0 ∨ b.bits = 9223372036854775808 := by
  have hb := b.isLt
  have hz : Double.zero.isNaN = false := by decide
  have hk : Double.zero.key = 0 := by decide
  unfold Double.eq
  rw [hz, hk]
  simp only [Double.isNaN, Double.key, Double.signBit, Double.magnitude,
    Bool.and_eq_true, Bool.not_eq_true', decide_eq_false_iff_not, decide_eq_true_eq,
    Bool.not_false, and_true]
  constructor
  · rintro ⟨-, h0⟩
    split at h0 <;> omega
  · intro h0
    refine ⟨by omega, ?_⟩
    split <;> omega

/-! ## Lemmas: the engine's counter and name -/

theorem max_element_isSome {values : List Double} (hv : values.isEmpty = false) :
    (max_element values).isSome = true := by
  cases values with
  | nil => simp at hv
  | cons x rest => simp [max_element]

theorem min_element_isSome {values : List Double} (hv : values.isEmpty = false) :
    (min_element values).isSome = true := by
  cases values with
  | nil => simp at hv
  | cons x rest => simp [min_element]

theorem Calculator.sum_snd (c : Calculator) (a b : Int) : (c.sum a b).2 = c.bumped := rfl

theorem Calculator.product_snd (c : Calculator) (a b : Int) : (c.product a b).2 = c.bumped := rfl

theorem Calculator.divide_snd (c : Calculator) (a b : Double) : (c.divide a b).2 = c.bumped := by
  unfold Calculator.divide Calculator.bumped
  split <;> rfl

theorem Calculator.average_snd (c : Calculator) (values : List Double) :
    (c.average values).2 = c.bumped := by
  unfold Calculator.average Calculator.bumped
  split <;> rfl

theorem Calculator.max_some (c : Calculator) (values : List Double) :
    ∃ r, c.max values = some (r, c.bumped) := by
  unfold Calculator.max Calculator.bumped
  by_cases hv : values.isEmpty = true
  · exact ⟨Double.zero, by simp [hv]⟩
  · have hs := max_element_isSome (Bool.eq_false_iff.mpr hv)
    obtain ⟨it, hit⟩ := Option.isSome_iff_exists.mp hs
    exact ⟨it.2, by simp [hv, hit]⟩

theorem Calculator.min_some (c : Calculator) (values : List Double) :
    ∃ r, c.min values = some (r, c.bumped) := by
  unfold Calculator.min Calculator.bumped
  by_cases hv : values.isEmpty = true
  · exact ⟨Double.zero, by simp [hv]⟩
  · have hs := min_element_isSome (Bool.eq_false_iff.mpr hv)
    obtain ⟨it, hit⟩ := Option.isSome_iff_exists.mp hs
    exact ⟨it.2, by simp [hv, hit]⟩

/-! ## Lemmas: one call on a live handle -/

theorem Heap.setCalc_calcs_self (h : Heap) (p : Nat) (c : Option Calculator) :
    (h.setCalc p c).calcs p = c := by
  simp [Heap.setCalc]

theorem Heap.setCalc_calcs_other (h : Heap) (p q : Nat) (c : Option Calculator) (hq : q ≠ p) :
    (h.setCalc p c).calcs q = h.calcs q := by
  simp [Heap.setCalc, hq]

/-- A call on a live handle that reads within the caller's array returns, and
leaves at the handle the object `Call.after` describes. -/
theorem Call.exec_live (h : Heap) (handle : Nat) (c : Calculator) (call : Call)
    (hl : h.calcs handle = some c) (hb : call.inBounds = true) :
    ∃ h', call.exec h handle = some h' ∧ h'.calcs handle = some (call.after c) := by
  cases call with
  | sum a b =>
    simp [Call.exec, calculator_sum, hl, Heap.setCalc_calcs_self, Call.after, Call.counted,
      Calculator.sum_snd]
  | product a b =>
    simp [Call.exec, calculator_product, hl, Heap.setCalc_calcs_self, Call.after, Call.counted,
      Calculator.product_snd]
  | divide a b =>
    simp [Call.exec, calculator_divide, hl, Heap.setCalc_calcs_self, Call.after, Call.counted,
      Calculator.divide_snd]
  | average values length =>
    cases values with
    | none => simp [Call.exec, calculator_average, hl, Call.after, Call.counted, Call.forwarded]
    | some values =>
      by_cases hlen : length ≤ 0
      · simp [Call.exec, calculator_average, hlen, hl, Call.after, Call.counted, Call.forwarded,
          Int.not_lt.mpr hlen]
      · have hr : length.toNat ≤ values.length := by
          simpa [Call.inBounds, Call.readable, hlen] using hb
        simp [Call.exec, calculator_average, hlen, vector_of, hr, hl, Heap.setCalc_calcs_self,
          Call.after, Call.counted, Call.forwarded, Calculator.average_snd, Int.not_le.mp hlen]
  | max values length =>
    cases values with
    | none => simp [Call.exec, calculator_max, hl, Call.after, Call.counted, Call.forwarded]
    | some values =>
      by_cases hlen : length ≤ 0
      · simp [Call.exec, calculator_max, hlen, hl, Call.after, Call.counted, Call.forwarded,
          Int.not_lt.mpr hlen]
      · have hr : length.toNat ≤ values.length := by
          simpa [Call.inBounds, Call.readable, hlen] using hb
        obtain ⟨r, hr'⟩ := c.max_some (values.take length.toNat)
        simp [Call.exec, calculator_max, hlen, vector_of, hr, hl, hr', Heap.setCalc_calcs_self,
          Call.after, Call.counted, Call.forwarded, Int.not_le.mp hlen]
  | min values length =>
    cases values with
    | none => simp [Call.exec, calculator_min, hl, Call.after, Call.counted, Call.forwarded]
    | some values =>
      by_cases hlen : length ≤ 0
      · simp [Call.exec, calculator_min, hlen, hl, Call.after, Call.counted, Call.forwarded,
          Int.not_lt.mpr hlen]
      · have hr : length.toNat ≤ values.length := by
          simpa [Call.inBounds, Call.readable, hlen] using hb
        obtain ⟨r, hr'⟩ := c.min_some (values.take length.toNat)
        simp [Call.exec, calculator_min, hlen, vector_of, hr, hl, hr', Heap.setCalc_calcs_self,
          Call.after, Call.counted, Call.forwarded, Int.not_le.mp hlen]
  | description result =>
    by_cases hres : result = 0
    · simp [Call.exec, calculator_description, hl, hres, Call.after, Call.counted]
    · simp [Call.exec, calculator_description, hl, hres, Heap.setString, Call.after,
        Call.counted]
  | get_operation_count =>
    simp [Call.exec, calculator_get_operation_count, hl, Call.after, Call.counted]

/-! ## Lemmas: runs of calls on a live handle -/

theorem run_append (h : Heap) (handle : Nat) (pre post : List Call) :
    run h handle (pre ++ post) = (run h handle pre).bind (fun h => run h handle post) := by
  induction pre generalizing h with
  | nil => simp [run]
  | cons call pre ih =>
    simp only [List.cons_append, run]
    cases call.exec h handle with
    | none => simp
    | some h1 => simpa using ih h1

/-- A sequence of calls on a live handle, each reading within the caller's
array, returns, and leaves at the handle the object `afterAll` describes. -/
theorem run_live (h : Heap) (handle : Nat) (c : Calculator) (calls : List Call)
    (hl : h.calcs handle = some c) (hb : ∀ call ∈ calls, call.inBounds = true) :
    ∃ h', run h handle calls = some h' ∧ h'.calcs handle = some (afterAll calls c) := by
  induction calls generalizing h c with
  | nil => exact ⟨h, rfl, hl⟩
  | cons call calls ih =>
    obtain ⟨h1, hx, hl1⟩ := Call.exec_live h handle c call hl (hb call (List.mem_cons_self _ _))
    obtain ⟨h2, hr, hl2⟩ := ih h1 (call.after c) hl1
      (fun k hk => hb k (List.mem_cons_of_mem _ hk))
    exact ⟨h2, by simp [run, hx, hr], by simpa [afterAll] using hl2⟩

theorem Call.after_name (call : Call) (c : Calculator) : (call.after c).name_ = c.name_ := by
  unfold Call.after Calculator.bumped
  split <;> rfl

theorem afterAll_name (calls : List Call) (c : Calculator) :
    (afterAll calls c).name_ = c.name_ := by
  induction calls generalizing c with
  | nil => rfl
  | cons call calls ih =>
    have h1 : afterAll (call :: calls) c = afterAll calls (call.after c) := rfl
    rw [h1, ih, Call.after_name]

/-- The counter after a sequence of calls: the number of counted calls added
to the counter before, with 32-bit wrap-around. -/
theorem afterAll_count (calls : List Call) (c : Calculator) (hc : IsInt32 c.operation_count_) :
    (afterAll calls c).operation_count_ = wrap32 (c.operation_count_ + countedCalls calls) := by
  induction calls generalizing c with
  | nil => simp [afterAll, countedCalls, wrap32_eq_self hc]
  | cons call calls ih =>
    have h1 : afterAll (call :: calls) c = afterAll calls (call.after c) := rfl
    rw [h1]
    by_cases hk : call.counted = true
    · have h2 : call.after c = c.bumped := by simp [Call.after, hk]
      have h3 : countedCalls (call :: calls) = countedCalls calls + 1 := by
        simp [countedCalls, List.countP_cons, hk]
      rw [h2, ih c.bumped (isInt32_wrap32 _), h3]
      show wrap32 (wrap32 (c.operation_count_ + 1) + _) = _
      rw [wrap32_wrap32_add]
      congr 1
      push_cast
      ring
    · have h2 : call.after c = c := by simp [Call.after, hk]
      have h3 : countedCalls (call :: calls) = countedCalls calls := by
        simp [countedCalls, List.countP_cons, hk]
      rw [h2, ih c hc, h3]

theorem countedCalls_append (pre post : List Call) :
    countedCalls (pre ++ post) = countedCalls pre + countedCalls post := by
  simp [countedCalls, List.countP_append]

theorem countedCalls_replicate_sum (n : Nat) (a b : Int) :
    countedCalls (List.replicate n (Call.sum a b)) = n := by
  induction n with
  | zero => rfl
  | succ n ih =>
    simp only [List.replicate_succ, countedCalls, List.countP_cons] at ih ⊢
    simp [ih, Call.counted]

theorem inBounds_of_validArgs {call : Call} (hv : call.validArgs = true) :
    call.inBounds = true := by
  cases call with
  | average values length =>
    cases values with
    | none => rfl
    | some values =>
      simp only [Call.validArgs, Call.validArray, Bool.and_eq_true, decide_eq_true_eq] at hv
      simp [Call.inBounds, Call.readable, hv.2]
  | max values length =>
    cases values with
    | none => rfl
    | some values =>
      simp only [Call.validArgs, Call.validArray, Bool.and_eq_true, decide_eq_true_eq] at hv
      simp [Call.inBounds, Call.readable, hv.2]
  | min values length =>
    cases values with
    | none => rfl
    | some values =>
      simp only [Call.validArgs, Call.validArray, Bool.and_eq_true, decide_eq_true_eq] at hv
      simp [Call.inBounds, Call.readable, hv.2]
  | _ => rfl

theorem counted_of_validArgs {call : Call} (hv : call.validArgs = true) :
    call.counted = !call.isQuery := by
  cases call with
  | average values length =>
    cases values with
    | none => simp [Call.validArgs, Call.validArray] at hv
    | some values =>
      simp only [Call.validArgs, Call.validArray, Bool.and_eq_true, decide_eq_true_eq] at hv
      have : 0 < length := by omega
      simp [Call.counted, Call.forwarded, Call.isQuery, this]
  | max values length =>
    cases values with
    | none => simp [Call.validArgs, Call.validArray] at hv
    | some values =>
      simp only [Call.validArgs, Call.validArray, Bool.and_eq_true, decide_eq_true_eq] at hv
      have : 0 < length := by omega
      simp [Call.counted, Call.forwarded, Call.isQuery, this]
  | min values length =>
    cases values with
    | none => simp [Call.validArgs, Call.validArray] at hv
    | some values =>
      simp only [Call.validArgs, Call.validArray, Bool.and_eq_true, decide_eq_true_eq] at hv
      have : 0 < length := by omega
      simp [Call.counted, Call.forwarded, Call.isQuery, this]
  | _ => rfl

theorem countedCalls_of_validArgs (calls : List Call)
    (hv : ∀ call ∈ calls, call.validArgs = true) :
    countedCalls calls = (calls.filter (fun call => !call.isQuery)).length := by
  induction calls with
  | nil => rfl
  | cons call calls ih =>
    have h1 := counted_of_validArgs (hv call (List.mem_cons_self _ _))
    have h2 := ih (fun k hk => hv k (List.mem_cons_of_mem _ hk))
    unfold countedCalls at h2 ⊢
    rw [List.countP_cons, h2, h1, List.filter_cons]
    cases call.isQuery <;> simp

/-- The object at a live handle after a sequence of calls, each reading
within the caller's array: the name it had, and the counter it had plus the
number of counted calls, with 32-bit wrap-around. -/
theorem run_state (h : Heap) (handle : Nat) (c : Calculator) (calls : List Call)
    (hl : h.calcs handle = some c) (hc : IsInt32 c.operation_count_)
    (hb : ∀ call ∈ calls, call.inBounds = true) :
    ∃ h' c', run h handle calls = some h' ∧ h'.calcs handle = some c' ∧
      c'.name_ = c.name_ ∧
      c'.operation_count_ = wrap32 (c.operation_count_ + countedCalls calls) := by
  obtain ⟨h', hr, hl'⟩ := run_live h handle c calls hl hb
  exact ⟨h', _, hr, hl', afterAll_name calls c, afterAll_count calls c hc⟩

/-- The count `calculator_get_operation_count` returns after a sequence of
calls on a live handle, each reading within the caller's array: the counter
before plus the number of counted calls, with 32-bit wrap-around. -/
theorem run_get_operation_count (h : Heap) (handle : Nat) (c : Calculator) (calls : List Call)
    (hl : h.calcs handle = some c) (hc : IsInt32 c.operation_count_)
    (hb : ∀ call ∈ calls, call.inBounds = true) :
    ∃ h', run h handle calls = some h' ∧
      calculator_get_operation_count h' handle =
        some (wrap32 (c.operation_count_ + countedCalls calls), h') := by
  obtain ⟨h', hr, hl'⟩ := run_live h handle c calls hl hb
  refine ⟨h', hr, ?_⟩
  simp [calculator_get_operation_count, hl', Calculator.get_operation_count,
    afterAll_count calls c hc]

/-! ## The claims -/

/-- C1, as amended.  For a live handle whose counter is `c` and a sequence of
calls on it of which `N` are calls of `calculator_sum`, `calculator_product`,
`calculator_divide`, `calculator_average`, `calculator_max` or `calculator_min`
(the statistics calls with a non-null array and a length of at least 1 within
the array) and the others calls of `calculator_description` or
`calculator_get_operation_count`, in any order: when `c + N` is at most
2^31 - 1, the run returns and `calculator_get_operation_count` then returns
`c + N`. -/
theorem C1_operation_count_after_calls (h : Heap) (handle : Nat) (c : Calculator)
    (calls : List Call)
    (hl : h.calcs handle = some c)
    (hc : IsInt32 c.operation_count_)
    (hv : ∀ call ∈ calls, call.validArgs = true)
    (hN : c.operation_count_ + ((calls.filter (fun call => !call.isQuery)).length : Int)
      ≤ INT_MAX) :
    ∃ h', run h handle calls = some h' ∧
      calculator_get_operation_count h' handle =
        some (c.operation_count_ + ((calls.filter (fun call => !call.isQuery)).length : Int),
          h') := by
  obtain ⟨h', hr, hg⟩ := run_get_operation_count h handle c calls hl hc
    (fun call hk => inBounds_of_validArgs (hv call hk))
  refine ⟨h', hr, ?_⟩
  rw [hg, countedCalls_of_validArgs calls hv]
  have hw : wrap32 (c.operation_count_ + ((calls.filter (fun call => !call.isQuery)).length : Int))
      = c.operation_count_ + ((calls.filter (fun call => !call.isQuery)).length : Int) := by
    apply wrap32_eq_self
    unfold IsInt32 INT_MIN INT_MAX at *
    omega
  rw [hw]

/-- A run for C1: on a handle fresh from `calculator_new`, three counted calls
with two queries in between leave the count at 0 + 3. -/
theorem C1_operation_count_after_calls_witness :
    ∃ h', run (calculator_new Heap.empty (some "Test") 1).2 1
        [Call.sum 1 2, Call.description 7, Call.average (some [Double.zero, Double.zero]) 2,
          Call.get_operation_count, Call.divide Double.zero Double.zero] = some h' ∧
      calculator_get_operation_count h' 1 = some (3, h') :=
  C1_operation_count_after_calls (calculator_new Heap.empty (some "Test") 1).2 1
    (Calculator.ctor "Test")
    [Call.sum 1 2, Call.description 7, Call.average (some [Double.zero, Double.zero]) 2,
      Call.get_operation_count, Call.divide Double.zero Double.zero]
    (by rfl) (by decide) (by decide) (by decide)

/-- C1 as stated fails when the counter passes 2^31 - 1.  On a handle fresh
from `calculator_new`, 2147483647 calls of `calculator_sum` bring the count to
c = 2147483647; after N = 1 further call `calculator_get_operation_count`
returns -2147483648, not c + N = 2147483648. -/
theorem C1_counterexample :
    ∃ h1 h2,
      run (calculator_new Heap.empty (some "Test") 1).2 1
        (List.replicate 2147483647 (Call.sum 0 0)) = some h1 ∧
      calculator_get_operation_count h1 1 = some (2147483647, h1) ∧
      run h1 1 [Call.sum 0 0] = some h2 ∧
      calculator_get_operation_count h2 1 = some (-2147483648, h2) := by
  obtain ⟨h1, c1, hr1, hl1, -, hc1⟩ := run_state (calculator_new Heap.empty (some "Test") 1).2 1
    (Calculator.ctor "Test") (List.replicate 2147483647 (Call.sum 0 0)) (by rfl) (by decide)
    (fun call hk => by rw [List.eq_of_mem_replicate hk]; rfl)
  rw [countedCalls_replicate_sum] at hc1
  have hc1' : c1.operation_count_ = 2147483647 := by rw [hc1]; decide
  obtain ⟨h2, c2, hr2, hl2, -, hc2⟩ := run_state h1 1 c1 [Call.sum 0 0] hl1
    (by rw [hc1']; decide) (by decide)
  have hc2' : c2.operation_count_ = -2147483648 := by rw [hc2, hc1']; decide
  refine ⟨h1, h2, hr1, ?_, hr2, ?_⟩
  · simp [calculator_get_operation_count, hl1, Calculator.get_operation_count, hc1']
  · simp [calculator_get_operation_count, hl2, Calculator.get_operation_count, hc2']

/-- C2.  When the array pointer is null or the length is zero or negative,
`calculator_average`, `calculator_max` and `calculator_min` each return 0.0 and
the heap as it was, so the operation count of the handle (of every handle) is
what it was before the call; this holds for every handle, live or not. -/
theorem C2_null_or_nonpositive_length (h : Heap) (handle : Nat)
    (values : Option (List Double)) (length : Int)
    (hg : values = none ∨ length ≤ 0) :
    calculator_average h handle values length = some (Double.zero, h) ∧
    calculator_max h handle values length = some (Double.zero, h) ∧
    calculator_min h handle values length = some (Double.zero, h) := by
  cases values with
  | none => exact ⟨rfl, rfl, rfl⟩
  | some values =>
    have hlen : length ≤ 0 := by
      rcases hg with hg | hg
      · cases hg
      · exact hg
    simp [calculator_average, calculator_max, calculator_min, hlen]

/-- An instance of C2: a non-null array with length -1 on a live handle. -/
theorem C2_null_or_nonpositive_length_witness :
    calculator_average (calculator_new Heap.empty none 1).2 1 (some [Double.nan]) (-1)
      = some (Double.zero, (calculator_new Heap.empty none 1).2) ∧
    calculator_max (calculator_new Heap.empty none 1).2 1 (some [Double.nan]) (-1)
      = some (Double.zero, (calculator_new Heap.empty none 1).2) ∧
    calculator_min (calculator_new Heap.empty none 1).2 1 (some [Double.nan]) (-1)
      = some (Double.zero, (calculator_new Heap.empty none 1).2) :=
  C2_null_or_nonpositive_length (calculator_new Heap.empty none 1).2 1 (some [Double.nan]) (-1)
    (Or.inr (by decide))

theorem to_string_natCast (k : Nat) : to_string (k : Int) = toString k := by
  have h : ¬ ((k : Int) < 0) := by omega
  simp [to_string, h]
  rfl

/-- C3, as amended.  After `calculator_new(name)` and a sequence of calls on
the new handle of which exactly `k` are counted, `k` at most 2^31 - 1, the
engine's description is the text `Calculator '<name>' with <k> operations`
with `k` in decimal, and `calculator_description` returns leaving every
`Calculator` object (its name and counter) as it was. -/
theorem C3_description_text (h0 : Heap) (name : String) (p : Nat) (calls : List Call)
    (k : Nat) (result : Nat)
    (hb : ∀ call ∈ calls, call.inBounds = true)
    (hk : calls.countP Call.counted = k)
    (hmax : (k : Int) ≤ INT_MAX) :
    ∃ h' c, run (calculator_new h0 (some name) p).2 p calls = some h' ∧
      h'.calcs p = some c ∧
      c.description = "Calculator '" ++ name ++ "' with " ++ toString k ++ " operations" ∧
      ∃ h'', calculator_description h' p result = some (result, h'') ∧
        h''.calcs = h'.calcs := by
  obtain ⟨h', c, hr, hl, hn, hc⟩ := run_state (calculator_new h0 (some name) p).2 p
    (Calculator.ctor name) calls (by simp [calculator_new, Heap.setCalc])
    (by simp only [Calculator.ctor]; decide) hb
  have hc' : c.operation_count_ = (k : Int) := by
    have hkc : countedCalls calls = k := hk
    have hz : (Calculator.ctor name).operation_count_ + (k : Int) = (k : Int) := by
      simp [Calculator.ctor]
    rw [hc, hkc, hz]
    apply wrap32_eq_self
    unfold IsInt32 INT_MIN
    unfold INT_MAX at *
    omega
  refine ⟨h', c, hr, hl, ?_, ?_⟩
  · have hn' : c.name_ = name := hn
    simp only [Calculator.description, hc', hn', to_string_natCast]
  · by_cases hres : result = 0
    · exact ⟨h', by simp [calculator_description, hl, hres], rfl⟩
    · exact ⟨h'.setString result (some (strcpy (c_str c.description))),
        by simp [calculator_description, hl, hres], rfl⟩

/-- The example of C3: the name "Test" and 3 counted calls. -/
theorem C3_description_text_witness :
    ∃ h' c, run (calculator_new Heap.empty (some "Test") 1).2 1
        [Call.sum 1 2, Call.max none 4, Call.product 3 4, Call.description 9,
          Call.divide Double.zero Double.zero] = some h' ∧
      h'.calcs 1 = some c ∧
      c.description = "Calculator 'Test' with 3 operations" ∧
      ∃ h'', calculator_description h' 1 8 = some (8, h'') ∧ h''.calcs = h'.calcs :=
  C3_description_text Heap.empty "Test" 1
    [Call.sum 1 2, Call.max none 4, Call.product 3 4, Call.description 9,
      Call.divide Double.zero Double.zero] 3 8 (by decide) (by decide) (by decide)

/-- C3 as stated fails for k = 2147483648: after `calculator_new("Test")` and
2147483648 calls of `calculator_sum`, all counted, the description reads
-2147483648 where the claim has 2147483648. -/
theorem C3_counterexample :
    List.countP Call.counted (List.replicate 2147483648 (Call.sum 0 0)) = 2147483648 ∧
    ∃ h' c, run (calculator_new Heap.empty (some "Test") 1).2 1
        (List.replicate 2147483648 (Call.sum 0 0)) = some h' ∧
      h'.calcs 1 = some c ∧
      c.description = "Calculator 'Test' with -2147483648 operations" ∧
      c.description ≠ "Calculator 'Test' with 2147483648 operations" := by
  refine ⟨countedCalls_replicate_sum _ _ _, ?_⟩
  obtain ⟨h', c, hr, hl, hn, hc⟩ := run_state (calculator_new Heap.empty (some "Test") 1).2 1
    (Calculator.ctor "Test") (List.replicate 2147483648 (Call.sum 0 0)) (by rfl) (by decide)
    (fun call hk => by rw [List.eq_of_mem_replicate hk]; rfl)
  rw [countedCalls_replicate_sum] at hc
  have hc' : c.operation_count_ = -2147483648 := by rw [hc]; decide
  have hn' : c.name_ = "Test" := hn
  have hd : c.description = "Calculator 'Test' with -2147483648 operations" := by
    simp only [Calculator.description, hc', hn']
    decide
  exact ⟨h', c, hr, hl, hd, by rw [hd]; decide⟩

/-- A handle fresh from `calculator_new("Test")` reaches the counter
2147483647 by 2147483647 calls of `calculator_sum`. -/
theorem reach_INT_MAX :
    ∃ h1, run (calculator_new Heap.empty (some "Test") 1).2 1
        (List.replicate 2147483647 (Call.sum 0 0)) = some h1 ∧
      h1.calcs 1 = some { name_ := "Test", operation_count_ := 2147483647 } := by
  obtain ⟨h1, c1, hr1, hl1, hn1, hc1⟩ := run_state (calculator_new Heap.empty (some "Test") 1).2 1
    (Calculator.ctor "Test") (List.replicate 2147483647 (Call.sum 0 0)) (by rfl) (by decide)
    (fun call hk => by rw [List.eq_of_mem_replicate hk]; rfl)
  rw [countedCalls_replicate_sum] at hc1
  have hc1' : c1.operation_count_ = 2147483647 := by rw [hc1]; decide
  have hn1' : c1.name_ = "Test" := hn1
  refine ⟨h1, hr1, ?_⟩
  rw [hl1]
  cases c1
  simp only [Calculator.mk.injEq, Option.some.injEq] at *
  exact ⟨hn1', hc1'⟩

theorem bumped_count_of_lt (c : Calculator) (hc : IsInt32 c.operation_count_)
    (hlt : c.operation_count_ < INT_MAX) :
    c.bumped.operation_count_ = c.operation_count_ + 1 := by
  show wrap32 (c.operation_count_ + 1) = c.operation_count_ + 1
  apply wrap32_eq_self
  unfold IsInt32 INT_MIN INT_MAX at *
  omega

theorem bumped_count_of_eq (c : Calculator) (heq : c.operation_count_ = INT_MAX) :
    c.bumped.operation_count_ = INT_MIN := by
  show wrap32 (c.operation_count_ + 1) = INT_MIN
  rw [heq]
  decide

/-- C4, as amended.  When `b` compares equal to 0.0, `Calculator::divide` (also
as reached through `calculator_divide`) and the free function `divide` return
0.0, which is neither an infinity nor a NaN; when `b` does not compare equal
to 0.0 both return `a / b`.  In both cases `Calculator::divide` leaves the name
as it was and increments the counter by exactly one, except that from
2^31 - 1 the counter wraps to -2^31. -/
theorem C4_divide (c : Calculator) (a b : Double) (hc : IsInt32 c.operation_count_) :
    (Double.eq b Double.zero = true →
      (c.divide a b).1 = Double.zero ∧ divide a b = Double.zero) ∧
    (Double.eq b Double.zero = false →
      (c.divide a b).1 = Double.div a b ∧ divide a b = Double.div a b) ∧
    (Double.zero.isInf = false ∧ Double.zero.isNaN = false) ∧
    (∀ h handle, h.calcs handle = some c →
      calculator_divide h handle a b =
        some ((c.divide a b).1, h.setCalc handle (some (c.divide a b).2))) ∧
    (c.divide a b).2.name_ = c.name_ ∧
    (c.operation_count_ < INT_MAX →
      (c.divide a b).2.operation_count_ = c.operation_count_ + 1) ∧
    (c.operation_count_ = INT_MAX → (c.divide a b).2.operation_count_ = INT_MIN) := by
  refine ⟨?_, ?_, ⟨by decide, by decide⟩, ?_, ?_, ?_, ?_⟩
  · intro hb
    simp [Calculator.divide, divide, hb]
  · intro hb
    simp [Calculator.divide, divide, hb]
  · intro h handle hl
    simp [calculator_divide, hl]
  · rw [Calculator.divide_snd]
    rfl
  · intro hlt
    rw [Calculator.divide_snd]
    exact bumped_count_of_lt c hc hlt
  · intro heq
    rw [Calculator.divide_snd]
    exact bumped_count_of_eq c heq

/-- An instance of C4: 1.0 divided by -0.0, which compares equal to 0.0, on an
engine that has counted 3 operations. -/
theorem C4_divide_witness :
    ((Calculator.divide { name_ := "Test", operation_count_ := 3 }
        (Double.ofBits 4607182418800017408) (Double.ofBits 9223372036854775808)).1 = Double.zero ∧
      divide (Double.ofBits 4607182418800017408) (Double.ofBits 9223372036854775808)
        = Double.zero) ∧
    (Calculator.divide { name_ := "Test", operation_count_ := 3 }
        (Double.ofBits 4607182418800017408)
        (Double.ofBits 9223372036854775808)).2.operation_count_ = 3 + 1 :=
  ⟨(C4_divide { name_ := "Test", operation_count_ := 3 } (Double.ofBits 4607182418800017408)
      (Double.ofBits 9223372036854775808) (by decide)).1 (by decide),
    (C4_divide { name_ := "Test", operation_count_ := 3 } (Double.ofBits 4607182418800017408)
      (Double.ofBits 9223372036854775808) (by decide)).2.2.2.2.2.1 (by decide)⟩

/-- C4 as stated fails at the counter 2147483647, which a handle reaches by
2147483647 counted calls: `Calculator::divide` then leaves the counter at
-2147483648 instead of one more. -/
theorem C4_counterexample :
    ∃ h1, run (calculator_new Heap.empty (some "Test") 1).2 1
        (List.replicate 2147483647 (Call.sum 0 0)) = some h1 ∧
      h1.calcs 1 = some { name_ := "Test", operation_count_ := 2147483647 } ∧
      Calculator.divide { name_ := "Test", operation_count_ := 2147483647 }
          (Double.ofBits 4607182418800017408) Double.zero
        = (Double.zero, { name_ := "Test", operation_count_ := -2147483648 }) ∧
      calculator_divide h1 1 (Double.ofBits 4607182418800017408) Double.zero
        = some (Double.zero,
            h1.setCalc 1 (some { name_ := "Test", operation_count_ := -2147483648 })) := by
  obtain ⟨h1, hr1, hl1⟩ := reach_INT_MAX
  have hd : Calculator.divide { name_ := "Test", operation_count_ := 2147483647 }
      (Double.ofBits 4607182418800017408) Double.zero
      = (Double.zero, { name_ := "Test", operation_count_ := -2147483648 }) := by decide
  refine ⟨h1, hr1, hl1, hd, ?_⟩
  simp only [calculator_divide, hl1, hd]

theorem description_default_prefix (count : Int) :
    "Calculator 'Default'".data <+:
      (Calculator.description { name_ := "Default", operation_count_ := count }).data := by
  refine ⟨" with ".data ++ (to_string count).data ++ " operations".data, ?_⟩
  simp [Calculator.description, String.data_append]

/-- C5.  `calculator_new(null)` creates, at the handle it returns, an engine
named "Default" with counter 0, whose description is exactly
"Calculator 'Default' with 0 operations"; the description of an engine named
"Default" begins with "Calculator 'Default'" whatever its counter.  For a
non-null name the engine has that name unchanged and counter 0. -/
theorem C5_calculator_new (h : Heap) (p : Nat) :
    (calculator_new h none p).1 = p ∧
    (calculator_new h none p).2.calcs p
      = some { name_ := "Default", operation_count_ := 0 } ∧
    Calculator.description { name_ := "Default", operation_count_ := 0 }
      = "Calculator 'Default' with 0 operations" ∧
    (∀ count : Int, "Calculator 'Default'".data <+:
      (Calculator.description { name_ := "Default", operation_count_ := count }).data) ∧
    (∀ name : String,
      (calculator_new h (some name) p).1 = p ∧
      (calculator_new h (some name) p).2.calcs p
        = some { name_ := name, operation_count_ := 0 }) := by
  refine ⟨rfl, ?_, by decide, description_default_prefix, ?_⟩
  · simp [calculator_new, Heap.setCalc, Calculator.ctor]
  · intro name
    simp [calculator_new, Heap.setCalc, Calculator.ctor]

/-- C6, as amended.  For 32-bit `a` and `b` and a live handle,
`calculator_sum` and `calculator_product` return what `Calculator::sum` and
`Calculator::product` return for the same `a` and `b`: the exact `a + b` and
`a * b` when that lies in the signed 32-bit range, and in every case the value
of the signed 32-bit range congruent to it modulo 2^32.  Each call leaves the
name as it was and increments the counter by exactly one, except that from
2^31 - 1 the counter wraps to -2^31. -/
theorem C6_sum_product (h : Heap) (handle : Nat) (c : Calculator) (a b : Int)
    (hl : h.calcs handle = some c) (_ha : IsInt32 a) (_hb : IsInt32 b)
    (hc : IsInt32 c.operation_count_) :
    (∃ r c', calculator_sum h handle a b = some (r, h.setCalc handle (some c')) ∧
      c.sum a b = (r, c') ∧
      (IsInt32 (a + b) → r = a + b) ∧
      IsInt32 r ∧ (r - (a + b)) % 4294967296 = 0 ∧
      c'.name_ = c.name_ ∧
      (c.operation_count_ < INT_MAX → c'.operation_count_ = c.operation_count_ + 1) ∧
      (c.operation_count_ = INT_MAX → c'.operation_count_ = INT_MIN)) ∧
    (∃ r c', calculator_product h handle a b = some (r, h.setCalc handle (some c')) ∧
      c.product a b = (r, c') ∧
      (IsInt32 (a * b) → r = a * b) ∧
      IsInt32 r ∧ (r - a * b) % 4294967296 = 0 ∧
      c'.name_ = c.name_ ∧
      (c.operation_count_ < INT_MAX → c'.operation_count_ = c.operation_count_ + 1) ∧
      (c.operation_count_ = INT_MAX → c'.operation_count_ = INT_MIN)) := by
  constructor
  · refine ⟨wrap32 (a + b), c.bumped, by simp [calculator_sum, hl, Calculator.sum_snd]; rfl,
      rfl, wrap32_eq_self, isInt32_wrap32 _, ?_, rfl, bumped_count_of_lt c hc,
      bumped_count_of_eq c⟩
    unfold wrap32
    omega
  · refine ⟨wrap32 (a * b), c.bumped,
      by simp [calculator_product, hl, Calculator.product_snd]; rfl,
      rfl, wrap32_eq_self, isInt32_wrap32 _, ?_, rfl, bumped_count_of_lt c hc,
      bumped_count_of_eq c⟩
    generalize a * b = m
    unfold wrap32
    omega

/-- An instance of C6 with overflow: 2147483647 + 1 wraps to -2147483648 and
65536 * 65536 wraps to 0, on a handle fresh from `calculator_new`. -/
theorem C6_sum_product_witness :
    (∃ r c', calculator_sum (calculator_new Heap.empty none 1).2 1 2147483647 1
        = some (r, (calculator_new Heap.empty none 1).2.setCalc 1 (some c')) ∧
      Calculator.sum (Calculator.ctor "Default") 2147483647 1 = (r, c') ∧
      (IsInt32 (2147483647 + 1) → r = 2147483647 + 1) ∧
      IsInt32 r ∧ (r - (2147483647 + 1)) % 4294967296 = 0 ∧
      c'.name_ = (Calculator.ctor "Default").name_ ∧
      ((Calculator.ctor "Default").operation_count_ < INT_MAX →
        c'.operation_count_ = (Calculator.ctor "Default").operation_count_ + 1) ∧
      ((Calculator.ctor "Default").operation_count_ = INT_MAX →
        c'.operation_count_ = INT_MIN)) ∧
    Calculator.sum (Calculator.ctor "Default") 2147483647 1
      = (-2147483648, { name_ := "Default", operation_count_ := 1 }) ∧
    Calculator.product (Calculator.ctor "Default") 65536 65536
      = (0, { name_ := "Default", operation_count_ := 1 }) :=
  ⟨(C6_sum_product (calculator_new Heap.empty none 1).2 1 (Calculator.ctor "Default")
      2147483647 1 (by rfl) (by decide) (by decide) (by decide)).1, by decide, by decide⟩

/-- C6 as stated fails at the counter 2147483647, which a handle reaches by
2147483647 counted calls: `calculator_sum` and `calculator_product` then leave
the counter at -2147483648 instead of one more. -/
theorem C6_counterexample :
    ∃ h1, run (calculator_new Heap.empty (some "Test") 1).2 1
        (List.replicate 2147483647 (Call.sum 0 0)) = some h1 ∧
      h1.calcs 1 = some { name_ := "Test", operation_count_ := 2147483647 } ∧
      calculator_sum h1 1 2 3
        = some (5, h1.setCalc 1 (some { name_ := "Test", operation_count_ := -2147483648 })) ∧
      calculator_product h1 1 2 3
        = some (6, h1.setCalc 1 (some { name_ := "Test", operation_count_ := -2147483648 })) := by
  obtain ⟨h1, hr1, hl1⟩ := reach_INT_MAX
  have hs : Calculator.sum { name_ := "Test", operation_count_ := 2147483647 } 2 3
      = (5, { name_ := "Test", operation_count_ := -2147483648 }) := by decide
  have hp : Calculator.product { name_ := "Test", operation_count_ := 2147483647 } 2 3
      = (6, { name_ := "Test", operation_count_ := -2147483648 }) := by decide
  refine ⟨h1, hr1, hl1, ?_, ?_⟩
  · simp only [calculator_sum, hl1, hs]
  · simp only [calculator_product, hl1, hp]

/-- C7, as amended.  The counter is 0 immediately after `calculator_new`.
Along every run of calls on the new handle (each reading within the caller's
array) of which at most 2^31 - 1 are counted, every call returns, the counter
before and after each call is a non-negative integer, and no call decreases
it. -/
theorem C7_counter_monotone (h0 : Heap) (name : Option String) (p : Nat) (calls : List Call)
    (hb : ∀ call ∈ calls, call.inBounds = true)
    (hmax : (calls.countP Call.counted : Int) ≤ INT_MAX) :
    (∃ c0, (calculator_new h0 name p).2.calcs p = some c0 ∧ c0.operation_count_ = 0) ∧
    ∀ pre call post, calls = pre ++ call :: post →
      ∃ h1 c1 h2 c2, run (calculator_new h0 name p).2 p pre = some h1 ∧
        h1.calcs p = some c1 ∧
        call.exec h1 p = some h2 ∧
        h2.calcs p = some c2 ∧
        0 ≤ c1.operation_count_ ∧
        c1.operation_count_ ≤ c2.operation_count_ := by
  have hnew : ∃ c0, (calculator_new h0 name p).2.calcs p = some c0 ∧ c0.operation_count_ = 0 := by
    cases name with
    | none => exact ⟨Calculator.ctor "Default", by simp [calculator_new, Heap.setCalc], rfl⟩
    | some name => exact ⟨Calculator.ctor name, by simp [calculator_new, Heap.setCalc], rfl⟩
  refine ⟨hnew, ?_⟩
  obtain ⟨c0, hl0, hc0⟩ := hnew
  intro pre call post hsplit
  have hb1 : ∀ k ∈ pre, k.inBounds = true := fun k hk =>
    hb k (by rw [hsplit]; exact List.mem_append_left _ hk)
  have hbc : call.inBounds = true :=
    hb call (by rw [hsplit]; exact List.mem_append_right _ (List.mem_cons_self _ _))
  have hcnt : countedCalls calls = countedCalls pre + countedCalls [call] + countedCalls post := by
    rw [hsplit, countedCalls_append]
    have : call :: post = [call] ++ post := rfl
    rw [this, countedCalls_append]
    omega
  have hmax' : (countedCalls calls : Int) ≤ 2147483647 := hmax
  obtain ⟨h1, c1, hr1, hl1, -, hc1⟩ := run_state (calculator_new h0 name p).2 p c0 pre hl0
    (by rw [hc0]; decide) hb1
  have hc1' : c1.operation_count_ = (countedCalls pre : Int) := by
    rw [hc1, hc0, Int.zero_add]
    apply wrap32_eq_self
    unfold IsInt32 INT_MIN INT_MAX
    omega
  obtain ⟨h2, c2, hr2, hl2, -, hc2⟩ := run_state h1 p c1 [call] hl1
    (by rw [hc1']; unfold IsInt32 INT_MIN INT_MAX; omega)
    (fun k hk => by rw [List.mem_singleton.mp hk]; exact hbc)
  have hc2' : c2.operation_count_ = (countedCalls pre : Int) + (countedCalls [call] : Int) := by
    rw [hc2, hc1']
    apply wrap32_eq_self
    unfold IsInt32 INT_MIN INT_MAX
    omega
  have hx : call.exec h1 p = some h2 := by
    cases hx : call.exec h1 p with
    | none => simp [run, hx] at hr2
    | some h2' => simpa [run, hx] using hr2
  exact ⟨h1, c1, h2, c2, hr1, hl1, hx, hl2, by omega, by omega⟩

/-- An instance of C7: a run of three calls split after the first. -/
theorem C7_counter_monotone_witness :
    ∃ h1 c1 h2 c2,
      run (calculator_new Heap.empty (some "Test") 1).2 1 [Call.sum 1 2] = some h1 ∧
      h1.calcs 1 = some c1 ∧
      (Call.max (some [Double.zero]) 1).exec h1 1 = some h2 ∧
      h2.calcs 1 = some c2 ∧
      0 ≤ c1.operation_count_ ∧
      c1.operation_count_ ≤ c2.operation_count_ :=
  (C7_counter_monotone Heap.empty (some "Test") 1
    [Call.sum 1 2, Call.max (some [Double.zero]) 1, Call.description 5]
    (by decide) (by decide)).2 [Call.sum 1 2] (Call.max (some [Double.zero]) 1)
    [Call.description 5] rfl

/-- C7 as stated fails: the state with counter 2147483647 is reachable from
`calculator_new` by 2147483647 calls of `calculator_sum`, and one more call of
`calculator_product` leaves the counter at -2147483648, which is negative and
less than before. -/
theorem C7_counterexample :
    ∃ h1 h2 c1 c2,
      run (calculator_new Heap.empty (some "Test") 1).2 1
        (List.replicate 2147483647 (Call.sum 0 0)) = some h1 ∧
      h1.calcs 1 = some c1 ∧
      (Call.product 1 1).exec h1 1 = some h2 ∧
      h2.calcs 1 = some c2 ∧
      c2.operation_count_ < 0 ∧
      c2.operation_count_ < c1.operation_count_ := by
  obtain ⟨h1, hr1, hl1⟩ := reach_INT_MAX
  have hp : Calculator.product { name_ := "Test", operation_count_ := 2147483647 } 1 1
      = (1, { name_ := "Test", operation_count_ := -2147483648 }) := by decide
  refine ⟨h1, h1.setCalc 1 (some { name_ := "Test", operation_count_ := -2147483648 }),
    { name_ := "Test", operation_count_ := 2147483647 },
    { name_ := "Test", operation_count_ := -2147483648 }, hr1, hl1, ?_, ?_, by decide, by decide⟩
  · simp only [Call.exec, calculator_product, hl1, hp, Option.map]
  · simp [Heap.setCalc]

/-- C8, as amended.  Called on the engine with an empty sequence,
`Calculator::average`, `Calculator::max` and `Calculator::min` each return 0.0,
leave the name as it was and increment the counter by exactly one, except that
from 2^31 - 1 the counter wraps to -2^31.  At the boundary layer a non-null
array with length 0 makes `calculator_average`, `calculator_max` and
`calculator_min` return 0.0 with the heap, counters included, as it was. -/
theorem C8_empty_sequence (c : Calculator) (hc : IsInt32 c.operation_count_) :
    (∃ c', c.average [] = (Double.zero, c') ∧
      c.max [] = some (Double.zero, c') ∧
      c.min [] = some (Double.zero, c') ∧
      c'.name_ = c.name_ ∧
      (c.operation_count_ < INT_MAX → c'.operation_count_ = c.operation_count_ + 1) ∧
      (c.operation_count_ = INT_MAX → c'.operation_count_ = INT_MIN)) ∧
    (∀ (h : Heap) (handle : Nat) (values : List Double),
      calculator_average h handle (some values) 0 = some (Double.zero, h) ∧
      calculator_max h handle (some values) 0 = some (Double.zero, h) ∧
      calculator_min h handle (some values) 0 = some (Double.zero, h)) := by
  refine ⟨⟨c.bumped, rfl, rfl, rfl, rfl, bumped_count_of_lt c hc, bumped_count_of_eq c⟩, ?_⟩
  intro h handle values
  simp [calculator_average, calculator_max, calculator_min]

/-- An instance of C8: an engine that has counted 3 operations. -/
theorem C8_empty_sequence_witness :
    Calculator.average { name_ := "Test", operation_count_ := 3 } []
      = (Double.zero, { name_ := "Test", operation_count_ := 4 }) ∧
    ∃ c', Calculator.average { name_ := "Test", operation_count_ := 3 } [] = (Double.zero, c') ∧
      Calculator.max { name_ := "Test", operation_count_ := 3 } [] = some (Double.zero, c') ∧
      Calculator.min { name_ := "Test", operation_count_ := 3 } [] = some (Double.zero, c') ∧
      c'.name_ = "Test" ∧
      ((3 : Int) < INT_MAX → c'.operation_count_ = 3 + 1) ∧
      ((3 : Int) = INT_MAX → c'.operation_count_ = INT_MIN) :=
  ⟨by decide, (C8_empty_sequence { name_ := "Test", operation_count_ := 3 } (by decide)).1⟩

/-- C8 as stated fails at the counter 2147483647, which an engine reaches by
2147483647 counted calls: on an empty sequence `Calculator::average`,
`Calculator::max` and `Calculator::min` then leave the counter at -2147483648
instead of one more. -/
theorem C8_counterexample :
    (∃ h1, run (calculator_new Heap.empty (some "Test") 1).2 1
        (List.replicate 2147483647 (Call.sum 0 0)) = some h1 ∧
      h1.calcs 1 = some { name_ := "Test", operation_count_ := 2147483647 }) ∧
    Calculator.average { name_ := "Test", operation_count_ := 2147483647 } []
      = (Double.zero, { name_ := "Test", operation_count_ := -2147483648 }) ∧
    Calculator.max { name_ := "Test", operation_count_ := 2147483647 } []
      = some (Double.zero, { name_ := "Test", operation_count_ := -2147483648 }) ∧
    Calculator.min { name_ := "Test", operation_count_ := 2147483647 } []
      = some (Double.zero, { name_ := "Test", operation_count_ := -2147483648 }) :=
  ⟨reach_INT_MAX, by decide, by decide, by decide⟩

/-! ## Lemmas: comparison of doubles and the element scans -/

theorem Double.lt_iff_key {a b : Double} (ha : a.isNaN = false) (hb : b.isNaN = false) :
    Double.lt a b = true ↔ a.key < b.key := by
  simp [Double.lt, ha, hb]

theorem Double.le_iff_key {a b : Double} (ha : a.isNaN = false) (hb : b.isNaN = false) :
    Double.le a b = true ↔ a.key ≤ b.key := by
  simp [Double.le, ha, hb]

/-- The candidate `std::max_element` ends with is the first candidate or a
later element, and no element without NaN around it lies above it. -/
theorem max_element_scan_spec (rest : List Double) (first : Nat) (cand : Nat × Double)
    (hc : cand.2.isNaN = false) (hr : ∀ x ∈ rest, x.isNaN = false) :
    (max_element_scan rest first cand).2 ∈ cand.2 :: rest ∧
    cand.2.key ≤ (max_element_scan rest first cand).2.key ∧
    ∀ x ∈ rest, x.key ≤ (max_element_scan rest first cand).2.key := by
  induction rest generalizing first cand with
  | nil => simp [max_element_scan]
  | cons z rest ih =>
    have hz : z.isNaN = false := hr z (List.mem_cons_self _ _)
    have hr' : ∀ x ∈ rest, x.isNaN = false := fun x hx => hr x (List.mem_cons_of_mem _ hx)
    by_cases hlt : Double.lt cand.2 z = true
    · have hk : cand.2.key < z.key := (Double.lt_iff_key hc hz).mp hlt
      obtain ⟨hm, hle, hall⟩ := ih (first + 1) (first, z) hz hr'
      simp only [max_element_scan, hlt, if_true]
      refine ⟨List.mem_cons_of_mem _ hm, by simp only at hle; omega, ?_⟩
      intro x hx
      rcases List.mem_cons.mp hx with rfl | hx
      · exact hle
      · exact hall x hx
    · have hk : ¬ cand.2.key < z.key := fun hk => hlt ((Double.lt_iff_key hc hz).mpr hk)
      obtain ⟨hm, hle, hall⟩ := ih (first + 1) cand hc hr'
      simp only [max_element_scan, Bool.eq_false_iff.mpr hlt, Bool.false_eq_true, if_false]
      refine ⟨?_, hle, ?_⟩
      · rcases List.mem_cons.mp hm with hm | hm
        · exact hm ▸ List.mem_cons_self _ _
        · exact List.mem_cons_of_mem _ (List.mem_cons_of_mem _ hm)
      · intro x hx
        rcases List.mem_cons.mp hx with rfl | hx
        · omega
        · exact hall x hx

/-- The candidate `std::min_element` ends with is the first candidate or a
later element, and no element without NaN around it lies below it. -/
theorem min_element_scan_spec (rest : List Double) (first : Nat) (cand : Nat × Double)
    (hc : cand.2.isNaN = false) (hr : ∀ x ∈ rest, x.isNaN = false) :
    (min_element_scan rest first cand).2 ∈ cand.2 :: rest ∧
    (min_element_scan rest first cand).2.key ≤ cand.2.key ∧
    ∀ x ∈ rest, (min_element_scan rest first cand).2.key ≤ x.key := by
  induction rest generalizing first cand with
  | nil => simp [min_element_scan]
  | cons z rest ih =>
    have hz : z.isNaN = false := hr z (List.mem_cons_self _ _)
    have hr' : ∀ x ∈ rest, x.isNaN = false := fun x hx => hr x (List.mem_cons_of_mem _ hx)
    by_cases hlt : Double.lt z cand.2 = true
    · have hk : z.key < cand.2.key := (Double.lt_iff_key hz hc).mp hlt
      obtain ⟨hm, hle, hall⟩ := ih (first + 1) (first, z) hz hr'
      simp only [min_element_scan, hlt, if_true]
      refine ⟨List.mem_cons_of_mem _ hm, by simp only at hle; omega, ?_⟩
      intro x hx
      rcases List.mem_cons.mp hx with rfl | hx
      · exact hle
      · exact hall x hx
    · have hk : ¬ z.key < cand.2.key := fun hk => hlt ((Double.lt_iff_key hz hc).mpr hk)
      obtain ⟨hm, hle, hall⟩ := ih (first + 1) cand hc hr'
      simp only [min_element_scan, Bool.eq_false_iff.mpr hlt, Bool.false_eq_true, if_false]
      refine ⟨?_, hle, ?_⟩
      · rcases List.mem_cons.mp hm with hm | hm
        · exact hm ▸ List.mem_cons_self _ _
        · exact List.mem_cons_of_mem _ (List.mem_cons_of_mem _ hm)
      · intro x hx
        rcases List.mem_cons.mp hx with rfl | hx
        · omega
        · exact hall x hx

/-- On a sequence that is not empty and holds no NaN, `Calculator::max`
returns an element of the sequence that every element is `<=`. -/
theorem Calculator.max_spec (c : Calculator) (vec : List Double) (hne : vec ≠ [])
    (hnan : ∀ x ∈ vec, x.isNaN = false) :
    ∃ r, c.max vec = some (r, c.bumped) ∧ r ∈ vec ∧ ∀ x ∈ vec, Double.le x r = true := by
  cases vec with
  | nil => exact absurd rfl hne
  | cons v rest =>
    have hv : v.isNaN = false := hnan v (List.mem_cons_self _ _)
    have hr : ∀ x ∈ rest, x.isNaN = false := fun x hx => hnan x (List.mem_cons_of_mem _ hx)
    obtain ⟨hm, hle, hall⟩ := max_element_scan_spec rest 1 (0, v) hv hr
    refine ⟨(max_element_scan rest 1 (0, v)).2, ?_, hm, ?_⟩
    · simp [Calculator.max, max_element, Calculator.bumped]
    · intro x hx
      have hrn : (max_element_scan rest 1 (0, v)).2.isNaN = false := hnan _ hm
      rw [Double.le_iff_key (hnan x hx) hrn]
      rcases List.mem_cons.mp hx with rfl | hx
      · exact hle
      · exact hall x hx

/-- On a sequence that is not empty and holds no NaN, `Calculator::min`
returns an element of the sequence that is `<=` every element. -/
theorem Calculator.min_spec (c : Calculator) (vec : List Double) (hne : vec ≠ [])
    (hnan : ∀ x ∈ vec, x.isNaN = false) :
    ∃ r, c.min vec = some (r, c.bumped) ∧ r ∈ vec ∧ ∀ x ∈ vec, Double.le r x = true := by
  cases vec with
  | nil => exact absurd rfl hne
  | cons v rest =>
    have hv : v.isNaN = false := hnan v (List.mem_cons_self _ _)
    have hr : ∀ x ∈ rest, x.isNaN = false := fun x hx => hnan x (List.mem_cons_of_mem _ hx)
    obtain ⟨hm, hle, hall⟩ := min_element_scan_spec rest 1 (0, v) hv hr
    refine ⟨(min_element_scan rest 1 (0, v)).2, ?_, hm, ?_⟩
    · simp [Calculator.min, min_element, Calculator.bumped]
    · intro x hx
      have hrn : (min_element_scan rest 1 (0, v)).2.isNaN = false := hnan _ hm
      rw [Double.le_iff_key hrn (hnan x hx)]
      rcases List.mem_cons.mp hx with rfl | hx
      · exact hle
      · exact hall x hx

/-- C9.  For a live handle, a non-null array and a length `n` of at least 1
within the array whose first `n` elements hold no NaN, `calculator_max` returns
one of those `n` elements, one that every one of them is `<=`, and
`calculator_min` returns one of them that is `<=` every one of them; an array
with the same first `n` elements gives the same results. -/
theorem C9_max_min (h : Heap) (handle : Nat) (c : Calculator) (values : List Double) (n : Int)
    (hl : h.calcs handle = some c) (hn : 1 ≤ n) (hlen : n.toNat ≤ values.length)
    (hnan : ∀ x ∈ values.take n.toNat, x.isNaN = false) :
    (∃ r h', calculator_max h handle (some values) n = some (r, h') ∧
      r ∈ values.take n.toNat ∧ ∀ x ∈ values.take n.toNat, Double.le x r = true) ∧
    (∃ r h', calculator_min h handle (some values) n = some (r, h') ∧
      r ∈ values.take n.toNat ∧ ∀ x ∈ values.take n.toNat, Double.le r x = true) ∧
    (∀ other : List Double, n.toNat ≤ other.length →
      other.take n.toNat = values.take n.toNat →
      calculator_max h handle (some other) n = calculator_max h handle (some values) n ∧
      calculator_min h handle (some other) n = calculator_min h handle (some values) n) := by
  have hpos : ¬ n ≤ 0 := by omega
  have hne : values.take n.toNat ≠ [] := by
    intro he
    have hlen0 : (values.take n.toNat).length = n.toNat := by
      rw [List.length_take]
      omega
    rw [he] at hlen0
    have hlen1 : n.toNat = 0 := hlen0.symm
    omega
  refine ⟨?_, ?_, ?_⟩
  · obtain ⟨r, hr, hm, hall⟩ := c.max_spec _ hne hnan
    exact ⟨r, h.setCalc handle (some c.bumped),
      by simp [calculator_max, hpos, vector_of, hlen, hl, hr], hm, hall⟩
  · obtain ⟨r, hr, hm, hall⟩ := c.min_spec _ hne hnan
    exact ⟨r, h.setCalc handle (some c.bumped),
      by simp [calculator_min, hpos, vector_of, hlen, hl, hr], hm, hall⟩
  · intro other holen htake
    simp [calculator_max, calculator_min, hpos, vector_of, hlen, holen, htake]

/-- An instance of C9: the array 1.0, 3.0, 2.0, NaN with length 3; the maximum
of the first three elements is 3.0 and their minimum 1.0. -/
theorem C9_max_min_witness :
    (∃ r h', calculator_max (calculator_new Heap.empty none 1).2 1
        (some [Double.ofBits 4607182418800017408, Double.ofBits 4613937818241073152,
          Double.ofBits 4611686018427387904, Double.nan]) 3 = some (r, h') ∧
      r ∈ List.take (3 : Int).toNat [Double.ofBits 4607182418800017408,
        Double.ofBits 4613937818241073152, Double.ofBits 4611686018427387904, Double.nan] ∧
      ∀ x ∈ List.take (3 : Int).toNat [Double.ofBits 4607182418800017408,
        Double.ofBits 4613937818241073152, Double.ofBits 4611686018427387904, Double.nan],
        Double.le x r = true) ∧
    (calculator_max (calculator_new Heap.empty none 1).2 1
        (some [Double.ofBits 4607182418800017408, Double.ofBits 4613937818241073152,
          Double.ofBits 4611686018427387904, Double.nan]) 3).map Prod.fst
      = some (Double.ofBits 4613937818241073152) ∧
    (calculator_min (calculator_new Heap.empty none 1).2 1
        (some [Double.ofBits 4607182418800017408, Double.ofBits 4613937818241073152,
          Double.ofBits 4611686018427387904, Double.nan]) 3).map Prod.fst
      = some (Double.ofBits 4607182418800017408) :=
  ⟨(C9_max_min (calculator_new Heap.empty none 1).2 1 (Calculator.ctor "Default")
      [Double.ofBits 4607182418800017408, Double.ofBits 4613937818241073152,
        Double.ofBits 4611686018427387904, Double.nan] 3
      (by rfl) (by decide) (by decide) (by decide)).1, by decide, by decide⟩

theorem foldl_add_take (values : List Double) (k : Nat) (hk : k ≤ values.length) :
    (values.take k).foldl (fun sum v => Double.add sum v) Double.zero = leftSum values k := by
  induction k with
  | zero => rfl
  | succ k ih =>
    have hlt : k < values.length := by omega
    rw [List.take_succ, List.foldl_append, ih (by omega)]
    simp [leftSum, List.getElem?_eq_getElem hlt, List.getD_eq_getElem?_getD]

/-- C10.  For a live handle, a non-null array and a length `n` of at least 1
within the array, `calculator_average` returns the sum of the first `n`
elements, accumulated left to right from 0.0, divided by `n` converted to
double. -/
theorem C10_average (h : Heap) (handle : Nat) (c : Calculator) (values : List Double) (n : Int)
    (hl : h.calcs handle = some c) (hn : 1 ≤ n) (hlen : n.toNat ≤ values.length) :
    ∃ h', calculator_average h handle (some values) n =
      some (Double.div (leftSum values n.toNat) (Double.ofNat n.toNat), h') := by
  have hpos : ¬ n ≤ 0 := by omega
  have hlen0 : (values.take n.toNat).length = n.toNat := by
    rw [List.length_take]
    omega
  have hne : (values.take n.toNat).isEmpty = false := by
    cases hv : values.take n.toNat with
    | nil =>
      rw [hv] at hlen0
      have hlen1 : n.toNat = 0 := hlen0.symm
      omega
    | cons v rest => rfl
  refine ⟨h.setCalc handle (some c.bumped), ?_⟩
  simp only [calculator_average, hpos, vector_of, hlen, if_true, if_false, hl,
    Calculator.average_snd]
  simp only [Calculator.average, hne, Bool.false_eq_true, if_false, hlen0,
    foldl_add_take values n.toNat hlen]

/-- An instance of C10: the array 1.0, 2.0, 4.0 with length 2, whose mean over
the first two elements is 1.5. -/
theorem C10_average_witness :
    (∃ h', calculator_average (calculator_new Heap.empty none 1).2 1
        (some [Double.ofBits 4607182418800017408, Double.ofBits 4611686018427387904,
          Double.ofBits 4616189618054758400]) 2 =
      some (Double.div (leftSum [Double.ofBits 4607182418800017408,
          Double.ofBits 4611686018427387904, Double.ofBits 4616189618054758400] (2 : Int).toNat)
        (Double.ofNat (2 : Int).toNat), h')) ∧
    Double.div (leftSum [Double.ofBits 4607182418800017408,
        Double.ofBits 4611686018427387904, Double.ofBits 4616189618054758400] (2 : Int).toNat)
      (Double.ofNat (2 : Int).toNat) = Double.ofBits 4609434218613702656 :=
  ⟨C10_average (calculator_new Heap.empty none 1).2 1 (Calculator.ctor "Default")
      [Double.ofBits 4607182418800017408, Double.ofBits 4611686018427387904,
        Double.ofBits 4616189618054758400] 2 (by rfl) (by decide) (by decide),
    by decide!⟩

/-! ## Lemmas: `factorial` -/

theorem factorial_nonpos (n : Int) (h : n ≤ 0) : factorial n = 1 := by
  rw [factorial]
  simp [h]

theorem factorial_one : factorial 1 = 1 := by
  rw [factorial]
  simp

theorem factorial_step (n : Int) (h : 2 ≤ n) :
    factorial n = wrap32 (n * factorial (wrap32 (n - 1))) := by
  have h0 : ¬ n ≤ 0 := by omega
  have h1 : ¬ n = 1 := by omega
  rw [factorial]
  simp [h0, h1]

theorem isInt32_factorial (n : Int) : IsInt32 (factorial n) := by
  by_cases h : 2 ≤ n
  · rw [factorial_step n h]
    exact isInt32_wrap32 _
  · by_cases h0 : n ≤ 0
    · rw [factorial_nonpos n h0]
      decide
    · have h1 : n = 1 := by omega
      rw [h1, factorial_one]
      decide

/-- With room for more than `n - 1` nested activations below the first, the
body of `factorial` returns the value of `factorial n` after `n - 1` recursive
calls (none for `n <= 1`). -/
theorem factorial_eval_spec (depth : Nat) (n : Int) (hn : IsInt32 n)
    (hd : (n - 1).toNat < depth) :
    factorial_eval depth n = some (factorial n, (n - 1).toNat) := by
  induction depth generalizing n with
  | zero => omega
  | succ depth ih =>
    by_cases h0 : n ≤ 0
    · have hc : (n - 1).toNat = 0 := by omega
      simp [factorial_eval, h0, factorial_nonpos n h0, hc]
    · by_cases h1 : n = 1
      · subst h1
        simp [factorial_eval, factorial_one]
      · have h2 : 2 ≤ n := by omega
        have hw : wrap32 (n - 1) = n - 1 := by
          apply wrap32_eq_self
          unfold IsInt32 INT_MIN INT_MAX at *
          omega
        have hn' : IsInt32 (n - 1) := by
          unfold IsInt32 INT_MIN INT_MAX at *
          omega
        have hrec := ih (n - 1) hn' (by omega)
        have hc : (n - 1 - 1).toNat + 1 = (n - 1).toNat := by omega
        rw [factorial_step n h2, hw]
        simp only [factorial_eval, h0, h1, hw, hrec, if_false, hc]

theorem factorial_of_eval {depth : Nat} {n r : Int} {calls : Nat} (hn : IsInt32 n)
    (hd : (n - 1).toNat < depth) (he : factorial_eval depth n = some (r, calls)) :
    factorial n = r := by
  rw [factorial_eval_spec depth n hn hd] at he
  simp only [Option.some.injEq, Prod.mk.injEq] at he
  exact he.1

theorem factorial_eq_nat (n : Int) (h0 : 0 ≤ n) (h12 : n ≤ 12) :
    factorial n = (Nat.factorial n.toNat : Int) := by
  interval_cases n
  · exact factorial_nonpos 0 (by decide)
  · exact factorial_one
  · exact factorial_of_eval (by decide) (by decide) (by decide : factorial_eval 13 2 = some (2, 1))
  · exact factorial_of_eval (by decide) (by decide) (by decide : factorial_eval 13 3 = some (6, 2))
  · exact factorial_of_eval (by decide) (by decide) (by decide : factorial_eval 13 4 = some (24, 3))
  · exact factorial_of_eval (by decide) (by decide)
      (by decide : factorial_eval 13 5 = some (120, 4))
  · exact factorial_of_eval (by decide) (by decide)
      (by decide : factorial_eval 13 6 = some (720, 5))
  · exact factorial_of_eval (by decide) (by decide)
      (by decide : factorial_eval 13 7 = some (5040, 6))
  · exact factorial_of_eval (by decide) (by decide)
      (by decide : factorial_eval 13 8 = some (40320, 7))
  · exact factorial_of_eval (by decide) (by decide)
      (by decide : factorial_eval 13 9 = some (362880, 8))
  · exact factorial_of_eval (by decide) (by decide)
      (by decide : factorial_eval 13 10 = some (3628800, 9))
  · exact factorial_of_eval (by decide) (by decide)
      (by decide : factorial_eval 13 11 = some (39916800, 10))
  · exact factorial_of_eval (by decide) (by decide)
      (by decide : factorial_eval 13 12 = some (479001600, 11))

/-- C11.  `factorial(n)` returns 1 for every `n <= 0`, negative `n` included,
`factorial(1)` is 1 and `factorial(5)` is 120. -/
theorem C11_factorial_values :
    (∀ n : Int, n ≤ 0 → factorial n = 1) ∧ factorial 1 = 1 ∧ factorial 5 = 120 :=
  ⟨factorial_nonpos, factorial_one,
    factorial_of_eval (by decide) (by decide) (by decide : factorial_eval 5 5 = some (120, 4))⟩

/-- An instance of C11: `factorial(-7)` and `factorial(-2147483648)`. -/
theorem C11_factorial_values_witness :
    factorial (-7) = 1 ∧ factorial (-2147483648) = 1 :=
  ⟨C11_factorial_values.1 (-7) (by decide), C11_factorial_values.1 (-2147483648) (by decide)⟩

/-- C16.  For `1 <= n <= 12`, `factorial(n)` is the mathematical `n!` and every
product `m * factorial(m - 1)` formed on the way (`2 <= m <= n`) lies in the
signed 32-bit range.  At 13 the product `13 * factorial(12)` leaves the range,
13! being above 2^31 - 1, and the wrapped result 1932053504 is not 13!; no
`n >= 13` has `factorial(n)` equal to `n!`. -/
theorem C16_factorial_range :
    (∀ n : Int, 1 ≤ n → n ≤ 12 →
      factorial n = (Nat.factorial n.toNat : Int) ∧
      ∀ m : Int, 2 ≤ m → m ≤ n → IsInt32 (m * factorial (m - 1))) ∧
    ¬ IsInt32 (13 * factorial (13 - 1)) ∧
    INT_MAX < (Nat.factorial 13 : Int) ∧
    factorial 13 = 1932053504 ∧
    factorial 13 ≠ (Nat.factorial 13 : Int) ∧
    (∀ n : Int, 13 ≤ n → factorial n ≠ (Nat.factorial n.toNat : Int)) := by
  have h12 : factorial 12 = 479001600 := by
    rw [factorial_eq_nat 12 (by decide) (by decide)]
    decide
  have h13 : factorial 13 = 1932053504 := by
    have hw : wrap32 (13 - 1) = 12 := by decide
    rw [factorial_step 13 (by decide), hw, h12]
    decide
  refine ⟨?_, ?_, by decide, h13, ?_, ?_⟩
  · intro n h1 hn
    refine ⟨factorial_eq_nat n (by omega) hn, ?_⟩
    intro m hm2 hmn
    have hm12 : m ≤ 12 := by omega
    rw [factorial_eq_nat (m - 1) (by omega) (by omega)]
    interval_cases m <;> decide
  · have he : (13 : Int) - 1 = 12 := by decide
    rw [he, h12]
    decide
  · rw [h13]
    decide
  · intro n hn heq
    have hr := isInt32_factorial n
    have hmono : Nat.factorial 13 ≤ Nat.factorial n.toNat := Nat.factorial_le (by omega)
    have h13v : Nat.factorial 13 = 6227020800 := by decide
    rw [heq] at hr
    unfold IsInt32 INT_MAX at hr
    omega

/-- An instance of C16: `factorial(12)` is 12! = 479001600, and the last
product formed, `12 * factorial(11)`, lies in the 32-bit range. -/
theorem C16_factorial_range_witness :
    factorial 12 = (Nat.factorial (12 : Int).toNat : Int) ∧
    IsInt32 (12 * factorial (12 - 1)) :=
  ⟨(C16_factorial_range.1 12 (by decide) (by decide)).1,
    (C16_factorial_range.1 12 (by decide) (by decide)).2 12 (by decide) (by decide)⟩

/-- C17.  For a 32-bit `n`, the body of `factorial` run with room for more than
`n - 1` nested activations below the first reaches a base case and returns the
value of `factorial n`, after exactly `n - 1` recursive calls when `n >= 1` and
none when `n <= 1`; where the body makes its recursive call (`n` neither
`<= 0` nor `== 1`) the argument `n - 1` is formed without overflow and is
strictly less than `n`. -/
theorem C17_factorial_total (n : Int) (hn : IsInt32 n) :
    (∃ calls : Nat,
      (∀ depth : Nat, (n - 1).toNat < depth →
        factorial_eval depth n = some (factorial n, calls)) ∧
      (1 ≤ n → (calls : Int) = n - 1) ∧
      (n ≤ 1 → calls = 0)) ∧
    (¬ n ≤ 0 → n ≠ 1 → wrap32 (n - 1) = n - 1 ∧ wrap32 (n - 1) < n) := by
  refine ⟨⟨(n - 1).toNat, fun depth hd => factorial_eval_spec depth n hn hd, ?_, ?_⟩, ?_⟩
  · intro h1
    omega
  · intro h1
    omega
  · intro h0 h1
    have hw : wrap32 (n - 1) = n - 1 := by
      apply wrap32_eq_self
      unfold IsInt32 INT_MIN INT_MAX at *
      omega
    rw [hw]
    exact ⟨rfl, by omega⟩

/-- An instance of C17: `factorial(5)` returns 120 after 4 recursive calls, the
first of them on 4. -/
theorem C17_factorial_total_witness :
    (∃ calls : Nat,
      (∀ depth : Nat, ((5 : Int) - 1).toNat < depth →
        factorial_eval depth 5 = some (factorial 5, calls)) ∧
      (1 ≤ (5 : Int) → (calls : Int) = 5 - 1) ∧
      ((5 : Int) ≤ 1 → calls = 0)) ∧
    factorial_eval 5 5 = some (120, 4) ∧
    factorial_eval 4 5 = none :=
  ⟨(C17_factorial_total 5 (by decide)).1, by decide, by decide⟩

/-- C13.  `add_points` adds the two points coordinate by coordinate,
`scale_point` multiplies both coordinates by the scale factor, and
`point_distance` is the square root of `dx * dx + dy * dy` for
`dx = p2.x - p1.x` and `dy = p2.y - p1.y`.  In particular
`point_distance({0,0},{3,4})` is 5.0, `add_points({1,2},{3,4})` is `{4,6}` and
`scale_point({2,3}, 2.0)` is `{4,6}`, the doubles 0.0 to 6.0 being given by
conversion from the integers and pinned to their bit patterns
(0x0000000000000000, 0x3FF0000000000000, 0x4000000000000000,
0x4008000000000000, 0x4010000000000000, 0x4014000000000000,
0x4018000000000000). -/
theorem C13_points :
    (∀ a b : Point, (add_points a b).x = Double.add a.x b.x ∧
      (add_points a b).y = Double.add a.y b.y) ∧
    (∀ (p : Point) (scale : Double), (scale_point p scale).x = Double.mul p.x scale ∧
      (scale_point p scale).y = Double.mul p.y scale) ∧
    (∀ p1 p2 : Point, point_distance p1 p2 =
      Double.sqrt (Double.add
        (Double.mul (Double.sub p2.x p1.x) (Double.sub p2.x p1.x))
        (Double.mul (Double.sub p2.y p1.y) (Double.sub p2.y p1.y)))) ∧
    point_distance { x := Double.ofNat 0, y := Double.ofNat 0 }
        { x := Double.ofNat 3, y := Double.ofNat 4 } = Double.ofNat 5 ∧
    [0, 1, 2, 3, 4, 5, 6].map (fun n => (Double.ofNat n).bits)
      = [0, 4607182418800017408, 4611686018427387904,
        4613937818241073152, 4616189618054758400,
        4617315517961601024, 4618441417868443648] ∧
    add_points { x := Double.ofNat 1, y := Double.ofNat 2 }
        { x := Double.ofNat 3, y := Double.ofNat 4 }
      = { x := Double.ofNat 4, y := Double.ofNat 6 } ∧
    scale_point { x := Double.ofNat 2, y := Double.ofNat 3 } (Double.ofNat 2)
      = { x := Double.ofNat 4, y := Double.ofNat 6 } :=
  ⟨fun _ _ => ⟨rfl, rfl⟩, fun _ _ => ⟨rfl, rfl⟩, fun _ _ => rfl,
    by decide!, by decide!, by decide!, by decide!⟩

/-! ## Lemmas: the description text holds no zero character -/

theorem digitChar_ne_NUL (d : Nat) : Nat.digitChar d ≠ NUL := by
  have key : ∀ (p : Prop) [Decidable p] (a b : Char), a ≠ NUL → b ≠ NUL →
      (if p then a else b) ≠ NUL := by
    intro p _ a b ha hb
    split <;> assumption
  unfold Nat.digitChar
  iterate 16 apply key _ _ _ (by decide)
  decide

theorem toDigitsCore_no_NUL (fuel n : Nat) (ds : List Char) (hds : NUL ∉ ds) :
    NUL ∉ Nat.toDigitsCore 10 fuel n ds := by
  induction fuel generalizing n ds with
  | zero => simpa [Nat.toDigitsCore] using hds
  | succ fuel ih =>
    have hcons : NUL ∉ Nat.digitChar (n % 10) :: ds := by
      intro hm
      rcases List.mem_cons.mp hm with hm | hm
      · exact digitChar_ne_NUL _ hm.symm
      · exact hds hm
    simp only [Nat.toDigitsCore]
    split
    · exact hcons
    · exact ih _ _ hcons

theorem repr_no_NUL (k : Nat) : NUL ∉ (Nat.repr k).data := by
  have h : (Nat.repr k).data = Nat.toDigits 10 k := rfl
  rw [h]
  exact toDigitsCore_no_NUL _ _ _ (by simp)

theorem to_string_no_NUL (val : Int) : NUL ∉ (to_string val).data := by
  unfold to_string
  split
  · rw [String.data_append]
    intro hm
    rcases List.mem_append.mp hm with hm | hm
    · revert hm
      decide
    · exact repr_no_NUL _ hm
  · exact repr_no_NUL _

theorem description_no_NUL (c : Calculator) (hname : NUL ∉ c.name_.data) :
    NUL ∉ c.description.data := by
  have h1 : NUL ∉ "Calculator '".data := by decide
  have h2 : NUL ∉ "' with ".data := by decide
  have h3 : NUL ∉ " operations".data := by decide
  have h4 := to_string_no_NUL c.operation_count_
  simp only [Calculator.description, String.data_append, List.mem_append, not_or]
  exact ⟨⟨⟨⟨h1, hname⟩, h2⟩, h4⟩, h3⟩

theorem takeWhile_ne_NUL_append (l : List Char) (hl : NUL ∉ l) :
    (l ++ [NUL]).takeWhile (fun ch => ch != NUL) = l := by
  induction l with
  | nil => simp [List.takeWhile]
  | cons a l ih =>
    have ha : a ≠ NUL := fun h => hl (h ▸ List.mem_cons_self _ _)
    have hl' : NUL ∉ l := fun h => hl (List.mem_cons_of_mem _ h)
    have hb : (a != NUL) = true := by simp [ha]
    rw [List.cons_append, List.takeWhile_cons, hb, if_pos rfl, ih hl']

theorem strcpy_c_str (s : String) (hs : NUL ∉ s.data) : strcpy (c_str s) = s.data ++ [NUL] := by
  unfold strcpy c_str
  rw [takeWhile_ne_NUL_append s.data hs]

/-- C12.  On a live handle whose engine has a name without zero character (the
text of a C string), `calculator_description` returns the address `malloc`
gave it and leaves every `Calculator` object as it was.  When the allocation
succeeds, the buffer at that address holds exactly the characters of the
engine's description followed by one terminating zero, text length + 1
characters in all, and no other buffer is touched; when the allocation fails
the result is null and the heap is as it was. -/
theorem C12_description_buffer (h : Heap) (handle : Nat) (c : Calculator) (result : Nat)
    (hl : h.calcs handle = some c) (hname : NUL ∉ c.name_.data) :
    ∃ h', calculator_description h handle result = some (result, h') ∧
      h'.calcs = h.calcs ∧
      (result ≠ 0 →
        h'.strings result = some (c.description.data ++ [NUL]) ∧
        (c.description.data ++ [NUL]).length = c.description.length + 1 ∧
        NUL ∉ c.description.data ∧
        ∀ q, q ≠ result → h'.strings q = h.strings q) ∧
      (result = 0 → h' = h) := by
  by_cases hres : result = 0
  · exact ⟨h, by simp [calculator_description, hl, hres], rfl, fun hne => absurd hres hne,
      fun _ => rfl⟩
  · refine ⟨h.setString result (some (strcpy (c_str c.description))),
      by simp [calculator_description, hl, hres], rfl, ?_, fun h0 => absurd h0 hres⟩
    intro _
    have hd := description_no_NUL c hname
    have hs : (h.setString result (some (strcpy (c_str c.description)))).strings result
        = some (strcpy (c_str c.description)) := by
      simp only [Heap.setString, if_true]
    refine ⟨by rw [hs, strcpy_c_str _ hd], by rw [List.length_append]; rfl, hd, ?_⟩
    intro q hq
    simp only [Heap.setString, hq, if_false]

/-- An instance of C12: the description of a fresh engine named "Test", with
the allocation succeeding at address 9 and with the allocation failing. -/
theorem C12_description_buffer_witness :
    (∃ h', calculator_description (calculator_new Heap.empty (some "Test") 1).2 1 9
        = some (9, h') ∧
      h'.calcs = (calculator_new Heap.empty (some "Test") 1).2.calcs ∧
      ((9 : Nat) ≠ 0 →
        h'.strings 9 = some ((Calculator.ctor "Test").description.data ++ [NUL]) ∧
        ((Calculator.ctor "Test").description.data ++ [NUL]).length
          = (Calculator.ctor "Test").description.length + 1 ∧
        NUL ∉ (Calculator.ctor "Test").description.data ∧
        ∀ q, q ≠ 9 → h'.strings q = (calculator_new Heap.empty (some "Test") 1).2.strings q) ∧
      ((9 : Nat) = 0 → h' = (calculator_new Heap.empty (some "Test") 1).2)) ∧
    (Calculator.ctor "Test").description.data ++ [NUL]
      = "Calculator 'Test' with 0 operations".data ++ [NUL] ∧
    calculator_description (calculator_new Heap.empty (some "Test") 1).2 1 0
      = some (0, (calculator_new Heap.empty (some "Test") 1).2) :=
  ⟨C12_description_buffer (calculator_new Heap.empty (some "Test") 1).2 1
      (Calculator.ctor "Test") 9 (by rfl) (by decide), by decide, by rfl⟩

/-- C14.  `calculator_free(null)` and `calculator_free_string(null)` return
with the heap as it was: every live instance, its name and counter, and every
live string unchanged.  `calculator_free` on a live handle returns with exactly
that instance removed, every other instance and every string buffer as it
was. -/
theorem C14_free (h : Heap) :
    calculator_free h 0 = some h ∧
    calculator_free_string h 0 = some h ∧
    (∀ (handle : Nat) (c : Calculator), handle ≠ 0 → h.calcs handle = some c →
      ∃ h', calculator_free h handle = some h' ∧
        h'.calcs handle = none ∧
        (∀ q, q ≠ handle → h'.calcs q = h.calcs q) ∧
        h'.strings = h.strings) := by
  refine ⟨by simp [calculator_free], by simp [calculator_free_string], ?_⟩
  intro handle c hne hl
  refine ⟨h.setCalc handle none, by simp [calculator_free, hne, hl], by simp [Heap.setCalc],
    ?_, rfl⟩
  intro q hq
  simp [Heap.setCalc, hq]

/-- An instance of C14: of two live instances, at addresses 1 and 2, freeing
the first leaves the second. -/
theorem C14_free_witness :
    ∃ h', calculator_free
        (calculator_new (calculator_new Heap.empty (some "A") 1).2 (some "B") 2).2 1 = some h' ∧
      h'.calcs 1 = none ∧
      (∀ q, q ≠ 1 → h'.calcs q
        = (calculator_new (calculator_new Heap.empty (some "A") 1).2 (some "B") 2).2.calcs q) ∧
      h'.strings
        = (calculator_new (calculator_new Heap.empty (some "A") 1).2 (some "B") 2).2.strings :=
  (C14_free (calculator_new (calculator_new Heap.empty (some "A") 1).2 (some "B") 2).2).2.2
    1 (Calculator.ctor "A") (by decide) (by rfl)

/-! ## Lemmas: the iterators of `std::max_element` and `std::min_element` -/

theorem getElem?_append_length (pre rest : List Double) (z : Double) :
    (pre ++ [z] ++ rest)[pre.length]? = some z := by
  induction pre with
  | nil => simp
  | cons a pre ih => simpa using ih

/-- The iterator the scan of `std::max_element` ends with points into the
sequence: at its position the sequence holds its element. -/
theorem max_element_scan_index (rest pre : List Double) (first : Nat) (cand : Nat × Double)
    (hf : first = pre.length) (hc : (pre ++ rest)[cand.1]? = some cand.2) :
    (pre ++ rest)[(max_element_scan rest first cand).1]?
      = some (max_element_scan rest first cand).2 := by
  induction rest generalizing pre first cand with
  | nil => simpa [max_element_scan] using hc
  | cons z rest ih =>
    have happ : pre ++ z :: rest = (pre ++ [z]) ++ rest := by simp
    have hlen : first + 1 = (pre ++ [z]).length := by simp [hf]
    rw [happ] at hc ⊢
    simp only [max_element_scan]
    split
    · exact ih (pre ++ [z]) (first + 1) (first, z) hlen
        (by rw [hf]; exact getElem?_append_length pre rest z)
    · exact ih (pre ++ [z]) (first + 1) cand hlen hc

/-- The iterator the scan of `std::min_element` ends with points into the
sequence: at its position the sequence holds its element. -/
theorem min_element_scan_index (rest pre : List Double) (first : Nat) (cand : Nat × Double)
    (hf : first = pre.length) (hc : (pre ++ rest)[cand.1]? = some cand.2) :
    (pre ++ rest)[(min_element_scan rest first cand).1]?
      = some (min_element_scan rest first cand).2 := by
  induction rest generalizing pre first cand with
  | nil => simpa [min_element_scan] using hc
  | cons z rest ih =>
    have happ : pre ++ z :: rest = (pre ++ [z]) ++ rest := by simp
    have hlen : first + 1 = (pre ++ [z]).length := by simp [hf]
    rw [happ] at hc ⊢
    simp only [min_element_scan]
    split
    · exact ih (pre ++ [z]) (first + 1) (first, z) hlen
        (by rw [hf]; exact getElem?_append_length pre rest z)
    · exact ih (pre ++ [z]) (first + 1) cand hlen hc

theorem max_element_valid (vec : List Double) (hne : vec.isEmpty = false) :
    ∃ i x, max_element vec = some (i, x) ∧ vec[i]? = some x := by
  cases vec with
  | nil => simp at hne
  | cons v rest =>
    exact ⟨_, _, rfl, max_element_scan_index rest [v] 1 (0, v) rfl (by simp)⟩

theorem min_element_valid (vec : List Double) (hne : vec.isEmpty = false) :
    ∃ i x, min_element vec = some (i, x) ∧ vec[i]? = some x := by
  cases vec with
  | nil => simp at hne
  | cons v rest =>
    exact ⟨_, _, rfl, min_element_scan_index rest [v] 1 (0, v) rfl (by simp)⟩

/-- C19.  When `calculator_average`, `calculator_max` or `calculator_min` gets
past its guard (a non-null array and a length that is not `<= 0`), on a live
handle and with `length` doubles readable from the array, it calls the engine
method on a sequence `vec` that has exactly `length` elements, `length >= 1`,
equal position by position to the first `length` entries of the array.  `vec`
is not empty, so the engine does not take its empty-sequence branch, and the
iterator `max_element` / `min_element` returns is not the end iterator: it
points at an element of `vec`, which is the value returned. -/
theorem C19_forwarded_sequence (h : Heap) (handle : Nat) (c : Calculator)
    (values : List Double) (length : Int)
    (hl : h.calcs handle = some c) (hg : ¬ length ≤ 0) (hb : length.toNat ≤ values.length) :
    ∃ vec : List Double,
      vector_of values length = some vec ∧
      calculator_average h handle (some values) length
        = some ((c.average vec).1, h.setCalc handle (some (c.average vec).2)) ∧
      calculator_max h handle (some values) length
        = (c.max vec).map (fun r => (r.1, h.setCalc handle (some r.2))) ∧
      calculator_min h handle (some values) length
        = (c.min vec).map (fun r => (r.1, h.setCalc handle (some r.2))) ∧
      1 ≤ length ∧
      (vec.length : Int) = length ∧
      (∀ i : Nat, i < vec.length → vec[i]? = values[i]?) ∧
      vec.isEmpty = false ∧
      (∃ i x, max_element vec = some (i, x) ∧ vec[i]? = some x ∧
        (c.max vec).map Prod.fst = some x) ∧
      (∃ i x, min_element vec = some (i, x) ∧ vec[i]? = some x ∧
        (c.min vec).map Prod.fst = some x) := by
  have hlen : (values.take length.toNat).length = length.toNat := by
    rw [List.length_take]
    omega
  have hne : (values.take length.toNat).isEmpty = false := by
    cases hv : values.take length.toNat with
    | nil =>
      rw [hv] at hlen
      have hlen1 : length.toNat = 0 := hlen.symm
      omega
    | cons v rest => rfl
  refine ⟨values.take length.toNat, by simp [vector_of, hb],
    by simp [calculator_average, hg, vector_of, hb, hl],
    by simp [calculator_max, hg, vector_of, hb, hl],
    by simp [calculator_min, hg, vector_of, hb, hl],
    by omega, by rw [hlen]; omega, ?_, hne, ?_, ?_⟩
  · intro i hi
    rw [hlen] at hi
    rw [List.getElem?_take, if_pos hi]
  · obtain ⟨i, x, hm, hx⟩ := max_element_valid _ hne
    exact ⟨i, x, hm, hx, by simp [Calculator.max, hne, hm]⟩
  · obtain ⟨i, x, hm, hx⟩ := min_element_valid _ hne
    exact ⟨i, x, hm, hx, by simp [Calculator.min, hne, hm]⟩

/-- An instance of C19: the array 3.0, 1.0, 2.0 with length 2 forwards the
sequence 3.0, 1.0. -/
theorem C19_forwarded_sequence_witness :
    (∃ vec : List Double,
      vector_of [Double.ofNat 3, Double.ofNat 1, Double.ofNat 2] 2 = some vec ∧
      calculator_average (calculator_new Heap.empty none 1).2 1
          (some [Double.ofNat 3, Double.ofNat 1, Double.ofNat 2]) 2
        = some ((Calculator.average (Calculator.ctor "Default") vec).1,
            (calculator_new Heap.empty none 1).2.setCalc 1
              (some (Calculator.average (Calculator.ctor "Default") vec).2)) ∧
      calculator_max (calculator_new Heap.empty none 1).2 1
          (some [Double.ofNat 3, Double.ofNat 1, Double.ofNat 2]) 2
        = (Calculator.max (Calculator.ctor "Default") vec).map
            (fun r => (r.1, (calculator_new Heap.empty none 1).2.setCalc 1 (some r.2))) ∧
      calculator_min (calculator_new Heap.empty none 1).2 1
          (some [Double.ofNat 3, Double.ofNat 1, Double.ofNat 2]) 2
        = (Calculator.min (Calculator.ctor "Default") vec).map
            (fun r => (r.1, (calculator_new Heap.empty none 1).2.setCalc 1 (some r.2))) ∧
      1 ≤ (2 : Int) ∧
      (vec.length : Int) = 2 ∧
      (∀ i : Nat, i < vec.length →
        vec[i]? = [Double.ofNat 3, Double.ofNat 1, Double.ofNat 2][i]?) ∧
      vec.isEmpty = false ∧
      (∃ i x, max_element vec = some (i, x) ∧ vec[i]? = some x ∧
        (Calculator.max (Calculator.ctor "Default") vec).map Prod.fst = some x) ∧
      (∃ i x, min_element vec = some (i, x) ∧ vec[i]? = some x ∧
        (Calculator.min (Calculator.ctor "Default") vec).map Prod.fst = some x)) ∧
    vector_of [Double.ofNat 3, Double.ofNat 1, Double.ofNat 2] 2
      = some [Double.ofNat 3, Double.ofNat 1] :=
  ⟨C19_forwarded_sequence (calculator_new Heap.empty none 1).2 1 (Calculator.ctor "Default")
      [Double.ofNat 3, Double.ofNat 1, Double.ofNat 2] 2 (by rfl) (by decide) (by decide),
    by rfl⟩

/-! ## Lemmas: what a call changes on the heap -/

theorem onlyCounterChanged_refl (h : Heap) (handle : Nat) (c : Calculator)
    (hl : h.calcs handle = some c) : OnlyCounterChanged h handle c h :=
  ⟨⟨c, hl, rfl⟩, fun _ _ => rfl, rfl⟩

theorem onlyCounterChanged_bumped (h : Heap) (handle : Nat) (c : Calculator) :
    OnlyCounterChanged h handle c (h.setCalc handle (some c.bumped)) :=
  ⟨⟨c.bumped, Heap.setCalc_calcs_self _ _ _, rfl⟩,
    fun _ hq => Heap.setCalc_calcs_other _ _ _ _ hq, rfl⟩

theorem calculator_average_heap (h : Heap) (handle : Nat) (c : Calculator)
    (values : Option (List Double)) (length : Int) (r : Double) (h' : Heap)
    (hl : h.calcs handle = some c)
    (hr : calculator_average h handle values length = some (r, h')) :
    h' = h ∨ h' = h.setCalc handle (some c.bumped) := by
  cases values with
  | none =>
    simp only [calculator_average, Option.some.injEq, Prod.mk.injEq] at hr
    exact Or.inl hr.2.symm
  | some values =>
    by_cases hlen : length ≤ 0
    · simp only [calculator_average, hlen, if_true, Option.some.injEq, Prod.mk.injEq] at hr
      exact Or.inl hr.2.symm
    · cases hv : vector_of values length with
      | none => simp [calculator_average, hlen, hv] at hr
      | some vec =>
        simp only [calculator_average, hlen, if_false, hv, hl, Calculator.average_snd,
          Option.some.injEq, Prod.mk.injEq] at hr
        exact Or.inr hr.2.symm

theorem calculator_max_heap (h : Heap) (handle : Nat) (c : Calculator)
    (values : Option (List Double)) (length : Int) (r : Double) (h' : Heap)
    (hl : h.calcs handle = some c)
    (hr : calculator_max h handle values length = some (r, h')) :
    h' = h ∨ h' = h.setCalc handle (some c.bumped) := by
  cases values with
  | none =>
    simp only [calculator_max, Option.some.injEq, Prod.mk.injEq] at hr
    exact Or.inl hr.2.symm
  | some values =>
    by_cases hlen : length ≤ 0
    · simp only [calculator_max, hlen, if_true, Option.some.injEq, Prod.mk.injEq] at hr
      exact Or.inl hr.2.symm
    · cases hv : vector_of values length with
      | none => simp [calculator_max, hlen, hv] at hr
      | some vec =>
        obtain ⟨r0, hr0⟩ := c.max_some vec
        simp only [calculator_max, hlen, if_false, hv, hl, hr0, Option.map_some',
          Option.some.injEq, Prod.mk.injEq] at hr
        exact Or.inr hr.2.symm

theorem calculator_min_heap (h : Heap) (handle : Nat) (c : Calculator)
    (values : Option (List Double)) (length : Int) (r : Double) (h' : Heap)
    (hl : h.calcs handle = some c)
    (hr : calculator_min h handle values length = some (r, h')) :
    h' = h ∨ h' = h.setCalc handle (some c.bumped) := by
  cases values with
  | none =>
    simp only [calculator_min, Option.some.injEq, Prod.mk.injEq] at hr
    exact Or.inl hr.2.symm
  | some values =>
    by_cases hlen : length ≤ 0
    · simp only [calculator_min, hlen, if_true, Option.some.injEq, Prod.mk.injEq] at hr
      exact Or.inl hr.2.symm
    · cases hv : vector_of values length with
      | none => simp [calculator_min, hlen, hv] at hr
      | some vec =>
        obtain ⟨r0, hr0⟩ := c.min_some vec
        simp only [calculator_min, hlen, if_false, hv, hl, hr0, Option.map_some',
          Option.some.injEq, Prod.mk.injEq] at hr
        exact Or.inr hr.2.symm

theorem onlyCounterChanged_of_or (h : Heap) (handle : Nat) (c : Calculator) (h' : Heap)
    (hl : h.calcs handle = some c)
    (hh : h' = h ∨ h' = h.setCalc handle (some c.bumped)) :
    OnlyCounterChanged h handle c h' := by
  rcases hh with rfl | rfl
  · exact onlyCounterChanged_refl _ handle c hl
  · exact onlyCounterChanged_bumped _ handle c

theorem Calculator.max_fst (c1 c2 : Calculator) (values : List Double) :
    (c1.max values).map Prod.fst = (c2.max values).map Prod.fst := by
  unfold Calculator.max
  by_cases hv : values.isEmpty = true
  · simp [hv]
  · simp only [hv, Bool.false_eq_true, if_false, Option.map_map]
    rfl

theorem Calculator.min_fst (c1 c2 : Calculator) (values : List Double) :
    (c1.min values).map Prod.fst = (c2.min values).map Prod.fst := by
  unfold Calculator.min
  by_cases hv : values.isEmpty = true
  · simp [hv]
  · simp only [hv, Bool.false_eq_true, if_false, Option.map_map]
    rfl

theorem Calculator.divide_fst (c1 c2 : Calculator) (a b : Double) :
    (c1.divide a b).1 = (c2.divide a b).1 := by
  unfold Calculator.divide
  split <;> rfl

theorem Calculator.average_fst (c1 c2 : Calculator) (values : List Double) :
    (c1.average values).1 = (c2.average values).1 := by
  unfold Calculator.average
  split <;> rfl

/-- C18.  For two live handles, on whatever heaps and with whatever names and
counters their engines have, `calculator_sum`, `calculator_product`,
`calculator_divide`, `calculator_average`, `calculator_max` and
`calculator_min` return the same value for the same arguments.  Each of these
calls, when it returns, leaves the heap as it was except for the counter of
the engine at its handle: that engine keeps its name, every other engine and
every string buffer is unchanged. -/
theorem C18_results_independent_of_state (h1 h2 : Heap) (k1 k2 : Nat) (c1 c2 : Calculator)
    (hl1 : h1.calcs k1 = some c1) (hl2 : h2.calcs k2 = some c2) :
    ((∀ a b, (calculator_sum h1 k1 a b).map Prod.fst
        = (calculator_sum h2 k2 a b).map Prod.fst) ∧
      (∀ a b, (calculator_product h1 k1 a b).map Prod.fst
        = (calculator_product h2 k2 a b).map Prod.fst) ∧
      (∀ a b, (calculator_divide h1 k1 a b).map Prod.fst
        = (calculator_divide h2 k2 a b).map Prod.fst) ∧
      (∀ values length, (calculator_average h1 k1 values length).map Prod.fst
        = (calculator_average h2 k2 values length).map Prod.fst) ∧
      (∀ values length, (calculator_max h1 k1 values length).map Prod.fst
        = (calculator_max h2 k2 values length).map Prod.fst) ∧
      (∀ values length, (calculator_min h1 k1 values length).map Prod.fst
        = (calculator_min h2 k2 values length).map Prod.fst)) ∧
    ((∀ a b, ∃ r h', calculator_sum h1 k1 a b = some (r, h') ∧
        OnlyCounterChanged h1 k1 c1 h') ∧
      (∀ a b, ∃ r h', calculator_product h1 k1 a b = some (r, h') ∧
        OnlyCounterChanged h1 k1 c1 h') ∧
      (∀ a b, ∃ r h', calculator_divide h1 k1 a b = some (r, h') ∧
        OnlyCounterChanged h1 k1 c1 h') ∧
      (∀ values length r h', calculator_average h1 k1 values length = some (r, h') →
        OnlyCounterChanged h1 k1 c1 h') ∧
      (∀ values length r h', calculator_max h1 k1 values length = some (r, h') →
        OnlyCounterChanged h1 k1 c1 h') ∧
      (∀ values length r h', calculator_min h1 k1 values length = some (r, h') →
        OnlyCounterChanged h1 k1 c1 h')) := by
  refine ⟨⟨?_, ?_, ?_, ?_, ?_, ?_⟩, ⟨?_, ?_, ?_, ?_, ?_, ?_⟩⟩
  · intro a b
    simp [calculator_sum, hl1, hl2, Calculator.sum]
  · intro a b
    simp [calculator_product, hl1, hl2, Calculator.product]
  · intro a b
    simp [calculator_divide, hl1, hl2, Calculator.divide_fst c1 c2]
  · intro values length
    cases values with
    | none => rfl
    | some values =>
      by_cases hlen : length ≤ 0
      · simp [calculator_average, hlen]
      · cases hv : vector_of values length with
        | none => simp [calculator_average, hlen, hv]
        | some vec =>
          simp [calculator_average, hlen, hv, hl1, hl2, Calculator.average_fst c1 c2]
  · intro values length
    cases values with
    | none => rfl
    | some values =>
      by_cases hlen : length ≤ 0
      · simp [calculator_max, hlen]
      · cases hv : vector_of values length with
        | none => simp [calculator_max, hlen, hv]
        | some vec =>
          have hf := Calculator.max_fst c1 c2 vec
          simp only [calculator_max, hlen, if_false, hv, hl1, hl2, Option.map_map]
          exact hf
  · intro values length
    cases values with
    | none => rfl
    | some values =>
      by_cases hlen : length ≤ 0
      · simp [calculator_min, hlen]
      · cases hv : vector_of values length with
        | none => simp [calculator_min, hlen, hv]
        | some vec =>
          have hf := Calculator.min_fst c1 c2 vec
          simp only [calculator_min, hlen, if_false, hv, hl1, hl2, Option.map_map]
          exact hf
  · intro a b
    exact ⟨_, _, by simp only [calculator_sum, hl1, Calculator.sum_snd]; rfl,
      onlyCounterChanged_bumped h1 k1 c1⟩
  · intro a b
    exact ⟨_, _, by simp only [calculator_product, hl1, Calculator.product_snd]; rfl,
      onlyCounterChanged_bumped h1 k1 c1⟩
  · intro a b
    exact ⟨_, _, by simp only [calculator_divide, hl1, Calculator.divide_snd]; rfl,
      onlyCounterChanged_bumped h1 k1 c1⟩
  · intro values length r h' hr
    exact onlyCounterChanged_of_or h1 k1 c1 h' hl1
      (calculator_average_heap h1 k1 c1 values length r h' hl1 hr)
  · intro values length r h' hr
    exact onlyCounterChanged_of_or h1 k1 c1 h' hl1
      (calculator_max_heap h1 k1 c1 values length r h' hl1 hr)
  · intro values length r h' hr
    exact onlyCounterChanged_of_or h1 k1 c1 h' hl1
      (calculator_min_heap h1 k1 c1 values length r h' hl1 hr)

/-- An instance of C18: an engine "A" with counter 0 at address 1 and an engine
"B" with counter 7 at address 2 of another heap give the same maximum, and
`calculator_max` on the first changes nothing but its counter. -/
theorem C18_results_independent_of_state_witness :
    (calculator_max (calculator_new Heap.empty (some "A") 1).2 1
        (some [Double.ofNat 3, Double.ofNat 1]) 2).map Prod.fst
      = (calculator_max (Heap.empty.setCalc 2 (some { name_ := "B", operation_count_ := 7 })) 2
        (some [Double.ofNat 3, Double.ofNat 1]) 2).map Prod.fst ∧
    ∀ r h', calculator_max (calculator_new Heap.empty (some "A") 1).2 1
        (some [Double.ofNat 3, Double.ofNat 1]) 2 = some (r, h') →
      OnlyCounterChanged (calculator_new Heap.empty (some "A") 1).2 1 (Calculator.ctor "A") h' :=
  ⟨(C18_results_independent_of_state (calculator_new Heap.empty (some "A") 1).2
      (Heap.empty.setCalc 2 (some { name_ := "B", operation_count_ := 7 })) 1 2
      (Calculator.ctor "A") { name_ := "B", operation_count_ := 7 } (by rfl) (by rfl)).1.2.2.2.2.1
      (some [Double.ofNat 3, Double.ofNat 1]) 2,
    (C18_results_independent_of_state (calculator_new Heap.empty (some "A") 1).2
      (Heap.empty.setCalc 2 (some { name_ := "B", operation_count_ := 7 })) 1 2
      (Calculator.ctor "A") { name_ := "B", operation_count_ := 7 } (by rfl) (by rfl)).2.2.2.2.2.1
      (some [Double.ofNat 3, Double.ofNat 1]) 2⟩

/-! ## Lemmas: the string buffers are read and written by no other function -/

theorem calculator_average_withStrings (g : Heap) (s : Nat → Option (List Char)) (k : Nat)
    (values : Option (List Double)) (length : Int) :
    calculator_average (g.withStrings s) k values length
      = (calculator_average g k values length).map (fun r => (r.1, r.2.withStrings s)) := by
  cases values with
  | none => rfl
  | some values =>
    by_cases hlen : length ≤ 0
    · simp [calculator_average, hlen]
    · cases hv : vector_of values length with
      | none => simp [calculator_average, hlen, hv]
      | some vec =>
        cases hk : g.calcs k with
        | none => simp [calculator_average, hlen, hv, hk, Heap.withStrings]
        | some c =>
          simp [calculator_average, hlen, hv, hk, Heap.withStrings, Heap.setCalc]

theorem calculator_max_withStrings (g : Heap) (s : Nat → Option (List Char)) (k : Nat)
    (values : Option (List Double)) (length : Int) :
    calculator_max (g.withStrings s) k values length
      = (calculator_max g k values length).map (fun r => (r.1, r.2.withStrings s)) := by
  cases values with
  | none => rfl
  | some values =>
    by_cases hlen : length ≤ 0
    · simp [calculator_max, hlen]
    · cases hv : vector_of values length with
      | none => simp [calculator_max, hlen, hv]
      | some vec =>
        cases hk : g.calcs k with
        | none => simp [calculator_max, hlen, hv, hk, Heap.withStrings]
        | some c =>
          obtain ⟨r0, hr0⟩ := c.max_some vec
          simp [calculator_max, hlen, hv, hk, hr0, Heap.withStrings, Heap.setCalc]

theorem calculator_min_withStrings (g : Heap) (s : Nat → Option (List Char)) (k : Nat)
    (values : Option (List Double)) (length : Int) :
    calculator_min (g.withStrings s) k values length
      = (calculator_min g k values length).map (fun r => (r.1, r.2.withStrings s)) := by
  cases values with
  | none => rfl
  | some values =>
    by_cases hlen : length ≤ 0
    · simp [calculator_min, hlen]
    · cases hv : vector_of values length with
      | none => simp [calculator_min, hlen, hv]
      | some vec =>
        cases hk : g.calcs k with
        | none => simp [calculator_min, hlen, hv, hk, Heap.withStrings]
        | some c =>
          obtain ⟨r0, hr0⟩ := c.min_some vec
          simp [calculator_min, hlen, hv, hk, hr0, Heap.withStrings, Heap.setCalc]

/-- C15.  A non-null buffer returned by `calculator_description` is live
afterwards; `calculator_free_string` on it then returns, releases exactly that
buffer and leaves every `Calculator` and every other buffer as it was; a
second `calculator_free_string` on it is a fault.  The library itself does
not read or free the buffer: whatever the string buffers hold, `calculator_new`,
`calculator_free`, `calculator_sum`, `calculator_product`, `calculator_divide`,
`calculator_average`, `calculator_max`, `calculator_min` and
`calculator_get_operation_count` return the same result and hand the buffers on
as they are; a later `calculator_description` (to which `malloc` gives another
address) returns a result and engines that do not depend on the buffers and
leaves this buffer as it is; and `calculator_free_string` on another address
leaves this buffer as it is. -/
theorem C15_string_round_trip (h : Heap) (handle : Nat) (c : Calculator) (result : Nat)
    (hl : h.calcs handle = some c) (hres : result ≠ 0) :
    (∃ h1 buf, calculator_description h handle result = some (result, h1) ∧
      h1.strings result = some buf ∧
      ∃ h2, calculator_free_string h1 result = some h2 ∧
        h2.strings result = none ∧
        h2.calcs = h1.calcs ∧
        (∀ q, q ≠ result → h2.strings q = h1.strings q) ∧
        calculator_free_string h2 result = none) ∧
    (∀ (g : Heap) (s : Nat → Option (List Char)),
      (∀ name p, calculator_new (g.withStrings s) name p
        = ((calculator_new g name p).1, (calculator_new g name p).2.withStrings s)) ∧
      (∀ k, calculator_free (g.withStrings s) k
        = (calculator_free g k).map (fun g' => g'.withStrings s)) ∧
      (∀ k a b, calculator_sum (g.withStrings s) k a b
        = (calculator_sum g k a b).map (fun r => (r.1, r.2.withStrings s))) ∧
      (∀ k a b, calculator_product (g.withStrings s) k a b
        = (calculator_product g k a b).map (fun r => (r.1, r.2.withStrings s))) ∧
      (∀ k a b, calculator_divide (g.withStrings s) k a b
        = (calculator_divide g k a b).map (fun r => (r.1, r.2.withStrings s))) ∧
      (∀ k values length, calculator_average (g.withStrings s) k values length
        = (calculator_average g k values length).map (fun r => (r.1, r.2.withStrings s))) ∧
      (∀ k values length, calculator_max (g.withStrings s) k values length
        = (calculator_max g k values length).map (fun r => (r.1, r.2.withStrings s))) ∧
      (∀ k values length, calculator_min (g.withStrings s) k values length
        = (calculator_min g k values length).map (fun r => (r.1, r.2.withStrings s))) ∧
      (∀ k, calculator_get_operation_count (g.withStrings s) k
        = (calculator_get_operation_count g k).map (fun r => (r.1, r.2.withStrings s))) ∧
      (∀ k p, (calculator_description (g.withStrings s) k p).map (fun r => (r.1, r.2.calcs))
        = (calculator_description g k p).map (fun r => (r.1, r.2.calcs)))) ∧
    (∀ (g : Heap) (k p : Nat) (r : Nat × Heap), p ≠ result →
      calculator_description g k p = some r → r.2.strings result = g.strings result) ∧
    (∀ (g : Heap) (str : Nat) (g' : Heap), str ≠ result →
      calculator_free_string g str = some g' → g'.strings result = g.strings result) := by
  refine ⟨?_, ?_, ?_, ?_⟩
  · refine ⟨h.setString result (some (strcpy (c_str c.description))),
      strcpy (c_str c.description), by simp [calculator_description, hl, hres],
      by simp [Heap.setString], ?_⟩
    refine ⟨(h.setString result (some (strcpy (c_str c.description)))).setString result none,
      by simp [calculator_free_string, hres, Heap.setString], by simp [Heap.setString], rfl,
      ?_, by simp [calculator_free_string, hres, Heap.setString]⟩
    intro q hq
    simp [Heap.setString, hq]
  · intro g s
    refine ⟨fun _ _ => rfl, ?_, ?_, ?_, ?_, calculator_average_withStrings g s,
      calculator_max_withStrings g s, calculator_min_withStrings g s, ?_, ?_⟩
    · intro k
      by_cases hk0 : k = 0
      · simp [calculator_free, hk0]
      · cases hk : g.calcs k <;> simp [calculator_free, hk0, hk, Heap.withStrings, Heap.setCalc]
    · intro k a b
      cases hk : g.calcs k <;> simp [calculator_sum, hk, Heap.withStrings, Heap.setCalc]
    · intro k a b
      cases hk : g.calcs k <;> simp [calculator_product, hk, Heap.withStrings, Heap.setCalc]
    · intro k a b
      cases hk : g.calcs k <;> simp [calculator_divide, hk, Heap.withStrings, Heap.setCalc]
    · intro k
      cases hk : g.calcs k <;> simp [calculator_get_operation_count, hk, Heap.withStrings]
    · intro k p
      by_cases hp : p = 0
      · cases hk : g.calcs k <;> simp [calculator_description, hk, hp, Heap.withStrings]
      · cases hk : g.calcs k <;>
          simp [calculator_description, hk, hp, Heap.withStrings, Heap.setString]
  · intro g k p r hp hr
    cases hk : g.calcs k with
    | none => simp [calculator_description, hk] at hr
    | some obj =>
      by_cases hp0 : p = 0
      · simp only [calculator_description, hk, hp0, ne_eq, not_true_eq_false, if_false,
          Option.some.injEq] at hr
        rw [← hr]
      · simp only [calculator_description, hk, ne_eq, hp0, not_false_eq_true, if_true,
          Option.some.injEq] at hr
        rw [← hr]
        simp [Heap.setString, Ne.symm hp]
  · intro g str g' hs hr
    by_cases hs0 : str = 0
    · simp only [calculator_free_string, hs0, ne_eq, not_true_eq_false, if_false,
        Option.some.injEq] at hr
      rw [← hr]
    · cases hk : g.strings str with
      | none => simp [calculator_free_string, hs0, hk] at hr
      | some buf =>
        simp only [calculator_free_string, ne_eq, hs0, not_false_eq_true, if_true, hk,
          Option.some.injEq] at hr
        rw [← hr]
        simp [Heap.setString, Ne.symm hs]

/-- An instance of C15: the description of a fresh engine allocated at address
9, released once; the second release is a fault. -/
theorem C15_string_round_trip_witness :
    ∃ h1 buf, calculator_description (calculator_new Heap.empty (some "Test") 1).2 1 9
        = some (9, h1) ∧
      h1.strings 9 = some buf ∧
      ∃ h2, calculator_free_string h1 9 = some h2 ∧
        h2.strings 9 = none ∧
        h2.calcs = h1.calcs ∧
        (∀ q, q ≠ 9 → h2.strings q = h1.strings q) ∧
        calculator_free_string h2 9 = none :=
  (C15_string_round_trip (calculator_new Heap.empty (some "Test") 1).2 1 (Calculator.ctor "Test")
    9 (by rfl) (by decide)).1

end DartFfi
